import Mathlib

/-!
# A ledger node: chain store and peer protocol

Shallow embedding of the Go packages `blockchain` (block.go, chain.go) and
`network` (network.go).

Conventions of the embedding

* A Go byte slice is a list of bytes; a nil slice and an empty slice are the
  same list.  A Go `string` is a Lean `String` (every string the program
  builds itself is ASCII).
* A function returning `(x, error)` returns a pair whose second component is
  `none` for a nil error.
* The key-value store behind `*badger.DB` is an association list, the most
  recent binding of a key first.  Reads fail only with "key not found"; a
  write (`Set`) and the commit of a read-write transaction may fail, which is
  decided by the environment.
* Opening and closing the store (`OpenDB`, `CloseDB`) and the creation of its
  directory are taken to succeed; a handle is identified with the content of
  the store it gives access to.
* Library code and the source files of the repository that are not available
  (proof of work, transactions, unspent-output index) are fields of the
  environment record, or are modelled from the specification where a claim
  needs their result; the doc comment of such a definition says so.
* A handler of network.go returns the node as it leaves it together with the
  message of the panic that stopped it, if any.  The node carries a record of
  every call of `SendData` and of every block `MineBlock` returned.
-/

set_option autoImplicit false
set_option linter.dupNamespace false

deriving instance DecidableEq for Except

/-- One byte. -/
abbrev Byte := Fin 256

/-- A byte slice. -/
abbrev Bytes := List Byte

/-- The bytes of an ASCII string, as the conversion `[]byte(s)` gives them. -/
def strBytes (s : String) : Bytes :=
  s.data.map fun c => Fin.ofNat c.toNat

/-- The string of a byte string, as the conversion `string(b)` gives it for
ASCII bytes: one character for every byte. -/
def bytesStr (b : Bytes) : String := String.mk (b.map fun x => Char.ofNat x.val)

/-! ## encoding/hex -/

namespace hex

/-- The table "0123456789abcdef" of the encoder. -/
def hextable : List Char :=
  ['0', '1', '2', '3', '4', '5', '6', '7', '8', '9', 'a', 'b', 'c', 'd', 'e', 'f']

/-- One digit of the encoder. -/
def digit (n : Nat) : Char := hextable.getD n '0'

/-- The value of a hexadecimal digit in either case, `none` for any other
character (the reverse table of the decoder). -/
def fromHexChar (c : Char) : Option Nat :=
  if '0' ≤ c ∧ c ≤ '9' then some (c.toNat - '0'.toNat)
  else if 'a' ≤ c ∧ c ≤ 'f' then some (c.toNat - 'a'.toNat + 10)
  else if 'A' ≤ c ∧ c ≤ 'F' then some (c.toNat - 'A'.toNat + 10)
  else none

/-- The two digits of every byte, high nibble first. -/
def encodeChars : Bytes → List Char
  | [] => []
  | b :: rest => digit (b.val / 16) :: digit (b.val % 16) :: encodeChars rest

/-- Go: `hex.EncodeToString`. -/
def EncodeToString (src : Bytes) : String := String.mk (encodeChars src)

/-- Pairs of digits back to bytes; an invalid digit or an odd length is an
error. -/
def decodeChars : List Char → Option Bytes
  | [] => some []
  | [_] => none
  | p :: q :: rest =>
    match fromHexChar p, fromHexChar q with
    | some a, some b =>
      match decodeChars rest with
      | some bs => some (Fin.ofNat (a * 16 + b) :: bs)
      | none => none
    | _, _ => none

/-- Go: `hex.DecodeString`; `none` stands for the returned error. -/
def DecodeString (s : String) : Option Bytes := decodeChars s.data

end hex

/-! ## The key-value store -/

/-- Contents of a store: bindings of keys to values, the latest first. -/
abbrev KV := List (Bytes × Bytes)

/-- Value bound to a key (`txn.Get` followed by `ValueCopy`), `none` when the
key is not found. -/
def kvGet : KV → Bytes → Option Bytes
  | [], _ => none
  | (k, v) :: rest, key => if k = key then some v else kvGet rest key

/-- Binding written by `txn.Set`. -/
def kvSet (kv : KV) (key value : Bytes) : KV := (key, value) :: kv

namespace blockchain

/-! ## Data model -/

/-- Modelled from the spec: an input of a transaction (transaction.go is not
among the sources); it references a prior transaction id and output index and
carries an unlocking proof. -/
structure TxInput where
  ID : Bytes
  Out : Int
  Signature : Bytes
deriving DecidableEq, Repr

/-- Modelled from the spec: an output of a transaction (transaction.go is not
among the sources); it holds a value and the public-key hash it is locked
to. -/
structure TxOutput where
  Value : Int
  PubKeyHash : Bytes
deriving DecidableEq, Repr

/-- Modelled from the spec: a transaction (transaction.go is not among the
sources), with its id, inputs and outputs.  network.go reads the fields `ID`
and `HashID` of a transaction, so both are present. -/
structure Transaction where
  ID : Bytes
  HashID : Bytes
  Inputs : List TxInput
  Outputs : List TxOutput
deriving DecidableEq, Repr

/-- The zero value of `Transaction`, which a Go map yields for an absent
key. -/
def Transaction.zero : Transaction := ⟨[], [], [], []⟩

/-- Go: `type Block struct` of block.go. -/
structure Block where
  Timestamp : Int
  Nonce : Int
  PrevHash : Bytes
  Hash : Bytes
  Transactions : List Transaction
deriving DecidableEq, Repr

/-- Go: `type Blockchain struct` of chain.go.  `Database` is the content of
the store the handle gives access to. -/
structure Blockchain where
  Path : String
  LastHash : Bytes
  Database : KV
deriving DecidableEq, Repr

/-- Go: the constant `LAST_HASH_KEY = "lastHash"`, as the key `[]byte(LAST_HASH_KEY)`. -/
def LAST_HASH_KEY : Bytes := strBytes "lastHash"

/-- Go: the constant `GENESIS_DATA`. -/
def GENESIS_DATA : String := "** >> GENESIS TRANSACTION << **"

/-- Go: the anonymous struct with JSON tags that `MarshalJSON` and
`UnmarshalJSON` of block.go hand to `encoding/json`; the two hashes are
strings. -/
structure BlockJSON where
  timestamp : Int
  nonce : Int
  prev_hash : String
  hash : String
  transactions : List Transaction
deriving DecidableEq, Repr

/-- What the chain store takes from outside block.go and chain.go. -/
structure Env where
  /-- Library `encoding/json`: `json.Marshal` of the struct of
  `MarshalJSON`, `none` on an error. -/
  jsonMarshal : BlockJSON → Option Bytes
  /-- Library `encoding/json`: `json.Unmarshal` into the struct of
  `UnmarshalJSON`, `none` on an error. -/
  jsonUnmarshal : Bytes → Option BlockJSON
  /-- Library `encoding/gob`: encoding of a block, `none` on an encoder error. -/
  gobEncode : Block → Option Bytes
  /-- Library `encoding/gob`: decoding of a block, `none` on a decoder error. -/
  gobDecode : Bytes → Option Block
  /-- Library `crypto/sha256`: `sha256.Sum256`. -/
  sha256 : Bytes → Bytes
  /-- Store: `txn.Set key value` returns an error in the transaction whose
  pending content is the first argument. -/
  setFails : KV → Bytes → Bytes → Bool
  /-- Store: the commit of a transaction fails (first the committed content,
  then the content the transaction would leave). -/
  commitFails : KV → KV → Bool
  /-- Proof of work, `NewProof(block).Run()` of the absent proof.go: the
  nonce, the hash and the error it returns for a candidate block. -/
  Run : Block → Int × Bytes × Option String
  /-- Absent transaction.go: `CoinbaseTX(address, data)`. -/
  CoinbaseTX : String → String → Transaction
  /-- Whether the manifest file `DB_FILE` exists (`DBexists`). -/
  DBexists : Bool
  /-- Absent proof.go: encoding of an integer of the block header. -/
  ToHex : Int → Bytes
  /-- Absent proof.go: the difficulty in bits. -/
  Difficulty : Nat

/-! ## block.go -/

/-- Go: `(b *Block) Serialize`. -/
def Block.Serialize (env : Env) (b : Block) : Bytes × Option String :=
  match env.gobEncode b with
  | some res => (res, none)
  | none => ([], some "failed to encode block to bytes")

/-- Go: `Deserialize`. -/
def Deserialize (env : Env) (data : Bytes) : Option Block × Option String :=
  match env.gobDecode data with
  | some block => (some block, none)
  | none => (none, some "failed to decode and deserialize bytes in to Block")

/-- Go: the struct literal of `(b *Block) MarshalJSON`. -/
def Block.toJSON (b : Block) : BlockJSON :=
  { timestamp := b.Timestamp,
    nonce := b.Nonce,
    prev_hash := hex.EncodeToString b.PrevHash,
    hash := hex.EncodeToString b.Hash,
    transactions := b.Transactions }

/-- Go: `(b *Block) MarshalJSON`. -/
def Block.MarshalJSON (env : Env) (b : Block) : Bytes × Option String :=
  match env.jsonMarshal b.toJSON with
  | some data => (data, none)
  | none => ([], some "json: marshal error")

/-- Go: `(b *Block) UnmarshalJSON(data)`, returning the receiver as the
call leaves it. -/
def Block.UnmarshalJSON (env : Env) (b : Block) (data : Bytes) : Block × Option String :=
  match env.jsonUnmarshal data with
  | none => (b, some "json: unmarshal error")
  | some aux =>
    match hex.DecodeString aux.prev_hash with
    | none => (b, some "encoding/hex: invalid string")
    | some prevHash =>
      match hex.DecodeString aux.hash with
      | none => (b, some "encoding/hex: invalid string")
      | some hash =>
        ({ Timestamp := aux.timestamp,
           Nonce := aux.nonce,
           PrevHash := prevHash,
           Hash := hash,
           Transactions := aux.transactions }, none)

/-- Go: `(b *Block) HashTransactions`. -/
def Block.HashTransactions (env : Env) (b : Block) : Bytes :=
  let txHashes := b.Transactions.map fun tx => tx.ID
  env.sha256 txHashes.flatten

/-- Go: `CreateBlock`.  The block is returned together with the error of the
proof-of-work run. -/
def CreateBlock (env : Env) (txs : List Transaction) (prevHash : Bytes) : Block × Option String :=
  let block : Block :=
    { Timestamp := 0, Nonce := 0, PrevHash := prevHash, Hash := [], Transactions := txs }
  let run := env.Run block
  ({ block with Hash := run.2.1, Nonce := run.1 }, run.2.2)

/-- Go: `Genesis`. -/
def Genesis (env : Env) (coinbase : Transaction) : Block × Option String :=
  CreateBlock env [coinbase] []

/-! ## chain.go -/

/-- Go: `db.Update(fn)`.  The function `fn` runs on the pending content of a
fresh transaction and on the memory it captures; its error discards the
transaction, otherwise the transaction is committed, which may fail.  What
`fn` did to the memory stays either way. -/
def Update {σ : Type} (env : Env) (db : KV) (mem : σ)
    (fn : KV → σ → Option String × KV × σ) : Option String × KV × σ :=
  match fn db mem with
  | (some err, _, mem1) => (some err, db, mem1)
  | (none, txn, mem1) =>
    if env.commitFails db txn then (some "commit failed", db, mem1)
    else (none, txn, mem1)

/-- Go: `(chain *Blockchain) GetLastHash`. -/
def Blockchain.GetLastHash (chain : Blockchain) : Bytes × Option String :=
  match kvGet chain.Database LAST_HASH_KEY with
  | none => ([], some "failed to get last hash from bytes")
  | some lastHash => (lastHash, none)

/-- Go: the function literal passed to `db.Update` in `PostBlockToDB`; the
captured memory is `chain.LastHash`. -/
def postBlockTxn (env : Env) (newBlock : Block) (txn : KV) (lastHashField : Bytes) :
    Option String × KV × Bytes :=
  match newBlock.Serialize env with
  | (_, some err) => (some err, txn, lastHashField)
  | (serializedBlock, none) =>
    if env.setFails txn newBlock.Hash serializedBlock then
      (some "failed to set serialized block in database", txn, lastHashField)
    else
      let txn1 := kvSet txn newBlock.Hash serializedBlock
      if env.setFails txn1 LAST_HASH_KEY newBlock.Hash then
        (some "failed to set LAST_HASH in database", txn1, lastHashField)
      else
        let txn2 := kvSet txn1 LAST_HASH_KEY newBlock.Hash
        (none, txn2, newBlock.Hash)

/-- Go: `(chain *Blockchain) PostBlockToDB(lastHash, newBlock, db)`, where
`db` is the handle `chain.Database` at every call. -/
def Blockchain.PostBlockToDB (env : Env) (chain : Blockchain) (_lastHash : Bytes)
    (newBlock : Block) : Option String × Blockchain :=
  match Update env chain.Database chain.LastHash (postBlockTxn env newBlock) with
  | (err, db, lastHashField) =>
    (err, { chain with LastHash := lastHashField, Database := db })

/-- Go: `(chain *Blockchain) AddBlock`; the request `data` is not read. -/
def Blockchain.AddBlock (env : Env) (chain : Blockchain) : Option String × Blockchain :=
  match chain.GetLastHash with
  | (_, some err) => (some err, chain)
  | (lastHash, none) =>
    match CreateBlock env [] lastHash with
    | (_, some err) => (some err, chain)
    | (newBlock, none) => chain.PostBlockToDB env lastHash newBlock

/-- Go: `(chain *Blockchain) GetBlockByHash`. -/
def Blockchain.GetBlockByHash (env : Env) (chain : Blockchain) (hash : Bytes) :
    Option Block × Option String :=
  match kvGet chain.Database hash with
  | none => (none, some "HASH NOT FOUND")
  | some encodedBlock => Deserialize env encodedBlock

/-- Go: the function literal passed to `db.Update` in `InitBlockchain`; the
captured memory is the local variable `lastHash`. -/
def initTxn (env : Env) (address : String) (committed : KV) (txn : KV) (lastHash : Bytes) :
    Option String × KV × Bytes :=
  match kvGet txn LAST_HASH_KEY with
  | none =>
    let cbtx := env.CoinbaseTX address GENESIS_DATA
    match Genesis env cbtx with
    | (_, some err) => (some err, txn, lastHash)
    | (genesis, none) =>
      match genesis.Serialize env with
      | (_, some err) => (some err, txn, lastHash)
      | (serializedBlock, none) =>
        if env.setFails txn genesis.Hash serializedBlock then
          (some "failed to set serialized block in database", txn, lastHash)
        else
          let txn1 := kvSet txn genesis.Hash serializedBlock
          if env.setFails txn1 LAST_HASH_KEY genesis.Hash then
            (some "failed to set LAST_HASH in database", txn1, lastHash)
          else
            (none, kvSet txn1 LAST_HASH_KEY genesis.Hash, genesis.Hash)
  | some _ =>
    match kvGet committed LAST_HASH_KEY with
    | none => (some "failed to get last hash from bytes", txn, [])
    | some last => (none, txn, last)

/-- Go: `InitBlockchain(address, nodeID)`, opening the store whose content is
`disk`.  The result is `none` when `DBexists()` holds and the goroutine exits
instead of returning. -/
def InitBlockchain (env : Env) (disk : KV) (address : String) (nodeID : Nat) :
    Option (Blockchain × Option String) :=
  if env.DBexists then none
  else
    let path := "../tmp/blocks_" ++ toString nodeID
    match Update env disk [] (initTxn env address disk) with
    | (err, db, lastHash) =>
      some ({ Path := path, LastHash := lastHash, Database := db }, err)

/-- Go: `type BlockchainIterator struct`; the handle `Database` is that of
`Chain`. -/
structure BlockchainIterator where
  CurrentHash : Bytes
  Chain : Blockchain
deriving DecidableEq, Repr

/-- Go: `(chain *Blockchain) NewIterator`. -/
def Blockchain.NewIterator (chain : Blockchain) : BlockchainIterator :=
  { CurrentHash := chain.LastHash, Chain := chain }

/-- Go: `(iter *BlockchainIterator) IterateNext`, returning the iterator as
the call leaves it. -/
def BlockchainIterator.IterateNext (env : Env) (iter : BlockchainIterator) :
    (Option Block × Option String) × BlockchainIterator :=
  match iter.Chain.GetBlockByHash env iter.CurrentHash with
  | (some block, none) => ((some block, none), { iter with CurrentHash := block.PrevHash })
  | (_, err) => ((none, err), iter)

end blockchain

namespace blockchain

/-! ## Proof of work -/

/-- Value of a byte string read as a big-endian integer (`big.Int.SetBytes`). -/
def bigEndian (bs : Bytes) : Nat :=
  bs.foldl (fun acc b => acc * 256 + b.val) 0

/-- Modelled from the spec: `Validate` of the proof-of-work engine, whose file
proof.go is not among the sources.  It recomputes the digest of
(prevHash ‖ txDigest ‖ timestamp ‖ nonce) with the stored nonce of the block
and accepts when the digest, read as a big integer, is strictly below the
target 2^(256 − difficultyBits). -/
def Validate (env : Env) (b : Block) : Bool :=
  let data := b.PrevHash ++ b.HashTransactions env ++ env.ToHex b.Timestamp ++ env.ToHex b.Nonce
  decide (bigEndian (env.sha256 data) < 2 ^ (256 - env.Difficulty))

/-! ## Closed examples -/

/-- An environment for closed examples.  Every store operation succeeds; the
binary encoder writes a tag byte, the hash and the previous hash, and there
is no decoder and no JSON library; the digest is the
all-ones digest, so that no block passes validation; the proof of work
returns a 32-byte hash made of the number of transactions. -/
def demoEnv : Env where
  jsonMarshal := fun _ => none
  jsonUnmarshal := fun _ => none
  gobEncode := fun b => some ((7 : Byte) :: (b.Hash ++ b.PrevHash))
  gobDecode := fun _ => none
  sha256 := fun _ => List.replicate 32 (255 : Byte)
  setFails := fun _ _ _ => false
  commitFails := fun _ _ => false
  Run := fun b => (0, List.replicate 32 (Fin.ofNat b.Transactions.length), none)
  CoinbaseTX := fun _ _ => ⟨[1], [], [], []⟩
  DBexists := false
  ToHex := fun _ => []
  Difficulty := 12

/-- The environment of closed examples with a store whose commits fail. -/
def demoEnvNoCommit : Env := { demoEnv with commitFails := fun _ _ => true }

/-- A chain handle on an empty store. -/
def emptyChain : Blockchain := { Path := "../tmp/blocks_0", LastHash := [], Database := [] }

/-- A block with a two-byte hash that no proof of work produced. -/
def forgedBlock : Block :=
  { Timestamp := 0, Nonce := 0, PrevHash := [], Hash := [1, 2], Transactions := [] }

/-- A block whose hash is the tip key itself. -/
def tipKeyBlock : Block :=
  { Timestamp := 0, Nonce := 0, PrevHash := [], Hash := LAST_HASH_KEY, Transactions := [] }

/-- The content a successful `PostBlockToDB` commits. -/
def postedStore (db : KV) (newBlock : Block) (serialized : Bytes) : KV :=
  kvSet (kvSet db newBlock.Hash serialized) LAST_HASH_KEY newBlock.Hash

end blockchain

namespace blockchain

/-! ## Chains of blocks -/

/-- Blocks listed from the newest to the oldest are linked: every block
names the hash of the next one of the list as its `PrevHash`, and the last
one, the genesis block, has an empty `PrevHash`. -/
def Linked : List Block → Prop
  | [] => True
  | [g] => g.PrevHash = []
  | b :: p :: rest => b.PrevHash = p.Hash ∧ Linked (p :: rest)

/-- The block `AddBlock` mines on a chain: `CreateBlock` on no transactions
and the stored tip. -/
def minedOn (env : Env) (chain : Blockchain) : Block :=
  (CreateBlock env [] chain.GetLastHash.1).1

/-- The chain handles obtained from `InitBlockchain` on an empty store by
successful calls of `AddBlock`, each with the blocks mined so far, newest
first. -/
inductive Built (env : Env) : Blockchain → List Block → Prop
  | init (address : String) (nodeID : Nat) (chain : Blockchain) :
      InitBlockchain env [] address nodeID = some (chain, none) →
      Built env chain [(Genesis env (env.CoinbaseTX address GENESIS_DATA)).1]
  | add (chain next : Blockchain) (blocks : List Block) :
      Built env chain blocks →
      chain.AddBlock env = (none, next) →
      Built env next (minedOn env chain :: blocks)

/-- The proof of work returns a 256-bit digest whenever it succeeds. -/
def DigestIs32Bytes (env : Env) : Prop :=
  ∀ b : Block, (env.Run b).2.2 = none → (env.Run b).2.1.length = 32

/-- The store of the chain holds the block under its hash
(`GetBlockByHash` returns it). -/
def Stored (env : Env) (chain : Blockchain) (b : Block) : Prop :=
  chain.GetBlockByHash env b.Hash = (some b, none)

/-- Results of the first `n` calls of `IterateNext`, with the iterator as
the last call leaves it. -/
def iterate (env : Env) : Nat → BlockchainIterator →
    List (Option Block × Option String) × BlockchainIterator
  | 0, iter => ([], iter)
  | n + 1, iter =>
    let step := iter.IterateNext env
    let more := iterate env n step.2
    (step.1 :: more.1, more.2)

/-- What holds of a chain handle and the blocks mined on it, newest first:
the blocks are linked down to the genesis block; the newest is the tip, both
in memory and in the store, and is stored under its hash; and every entry of
the store other than the tip pointer is the serialization of one of the
blocks, stored under the hash of that block. -/
def ChainInv (env : Env) (chain : Blockchain) (blocks : List Block) : Prop :=
  Linked blocks ∧
  (∃ tip rest, blocks = tip :: rest ∧ chain.LastHash = tip.Hash ∧
    kvGet chain.Database LAST_HASH_KEY = some tip.Hash ∧
    kvGet chain.Database tip.Hash = some (tip.Serialize env).1) ∧
  (∀ k v, k ≠ LAST_HASH_KEY → kvGet chain.Database k = some v →
    ∃ b ∈ blocks, b.Hash = k ∧ b.Serialize env = (v, none))

/-- The genesis block of the closed examples. -/
def demoGenesis : Block :=
  (Genesis demoEnv (demoEnv.CoinbaseTX "miner" GENESIS_DATA)).1

/-- The chain `InitBlockchain` leaves on an empty store in the closed
examples. -/
def demoChain1 : Blockchain :=
  { Path := "../tmp/blocks_" ++ toString 0,
    LastHash := demoGenesis.Hash,
    Database := postedStore [] demoGenesis (demoGenesis.Serialize demoEnv).1 }

/-- The chain after one `AddBlock` in the closed examples. -/
def demoChain2 : Blockchain := (demoChain1.AddBlock demoEnv).2

/-! ## A lossless codec for closed examples -/

/-- A number as a byte string: that many zero bytes. -/
def natBytes (n : Nat) : Bytes := List.replicate n 0

/-- The number a byte string of `natBytes` stands for. -/
def bytesNat (d : Bytes) : Nat := d.length

instance : Encodable TxInput :=
  Encodable.ofLeftInverse (fun i : TxInput => (i.ID, i.Out, i.Signature))
    (fun t => ⟨t.1, t.2.1, t.2.2⟩) (fun _ => rfl)

instance : Encodable TxOutput :=
  Encodable.ofLeftInverse (fun o : TxOutput => (o.Value, o.PubKeyHash))
    (fun t => ⟨t.1, t.2⟩) (fun _ => rfl)

instance : Encodable Transaction :=
  Encodable.ofLeftInverse (fun t : Transaction => (t.ID, t.HashID, t.Inputs, t.Outputs))
    (fun t => ⟨t.1, t.2.1, t.2.2.1, t.2.2.2⟩) (fun _ => rfl)

instance : Encodable Block :=
  Encodable.ofLeftInverse
    (fun b : Block => (b.Timestamp, b.Nonce, b.PrevHash, b.Hash, b.Transactions))
    (fun t => ⟨t.1, t.2.1, t.2.2.1, t.2.2.2.1, t.2.2.2.2⟩) (fun _ => rfl)

instance : Encodable BlockJSON :=
  Encodable.ofLeftInverse
    (fun a : BlockJSON =>
      (a.timestamp, a.nonce, a.prev_hash.data.map Char.toNat, a.hash.data.map Char.toNat,
        a.transactions))
    (fun t => ⟨t.1, t.2.1, String.mk (t.2.2.1.map Char.ofNat),
      String.mk (t.2.2.2.1.map Char.ofNat), t.2.2.2.2⟩)
    (fun a => by
      cases a
      simp [List.map_map, Function.comp_def])

/-- The environment of closed examples with lossless encoders: a block, and
the JSON struct of a block, is written as its code number. -/
def refEnv : Env :=
  { demoEnv with
    gobEncode := fun b => some (natBytes (Encodable.encode b))
    gobDecode := fun d => Encodable.decode (bytesNat d)
    jsonMarshal := fun a => some (natBytes (Encodable.encode a))
    jsonUnmarshal := fun d => Encodable.decode (bytesNat d) }

/-- The genesis block mined with the lossless codec. -/
def refGenesis : Block :=
  (Genesis refEnv (refEnv.CoinbaseTX "miner" GENESIS_DATA)).1

/-- The chain holding the genesis block only, with the lossless codec. -/
def refChain1 : Blockchain :=
  { Path := "../tmp/blocks_" ++ toString 0,
    LastHash := refGenesis.Hash,
    Database := postedStore [] refGenesis (natBytes (Encodable.encode refGenesis)) }

/-- The block mined on the genesis block, with the lossless codec. -/
def refSecond : Block := minedOn refEnv refChain1

/-- The chain holding the genesis block and the block mined on it, with the
lossless codec. -/
def refChain2 : Blockchain :=
  { Path := "../tmp/blocks_" ++ toString 0,
    LastHash := refSecond.Hash,
    Database := postedStore refChain1.Database refSecond
      (natBytes (Encodable.encode refSecond)) }

/-! ## Contracts of the encoding libraries -/

/-- The contract of `encoding/gob` on blocks: the encoder accepts every block
and the decoder reads the block back from what the encoder wrote. -/
def GobLossless (env : Env) : Prop :=
  ∀ b : Block, ∃ d, env.gobEncode b = some d ∧ env.gobDecode d = some b

/-- The contract of `encoding/json` on the struct that `MarshalJSON` builds
from a block: marshalling it succeeds and unmarshalling the result gives the
same struct. -/
def JSONLossless (env : Env) : Prop :=
  ∀ b : Block, ∃ d, env.jsonMarshal b.toJSON = some d ∧ env.jsonUnmarshal d = some b.toJSON

/-- A block with a coinbase transaction and one more transaction. -/
def sampleBlock : Block :=
  { Timestamp := 1700000000,
    Nonce := 42,
    PrevHash := [171, 1],
    Hash := [0, 255, 16],
    Transactions :=
      [ { ID := [1], HashID := [1], Inputs := [⟨[], -1, []⟩], Outputs := [⟨20, [9]⟩] },
        { ID := [2], HashID := [2], Inputs := [⟨[1], 0, [5]⟩],
          Outputs := [⟨7, [8]⟩, ⟨13, [9]⟩] } ] }

end blockchain

/-! ## network.go -/

namespace network

open blockchain (Transaction Blockchain)

/-- Go: the constant `version`. -/
def version : Int := 1

/-- Go: the constant `commandLength`. -/
def commandLength : Nat := 12

/-- Go: `type Addr struct`. -/
structure Addr where
  AddrList : List String
deriving DecidableEq, Repr

/-- Go: `type Block struct` of network.go. -/
structure Block where
  AddrFrom : String
  Block : Bytes
deriving DecidableEq, Repr

/-- Go: `type GetBlocks struct`. -/
structure GetBlocks where
  AddrFrom : String
deriving DecidableEq, Repr

/-- Go: `type GetData struct`; `Kind` is the field `Type`. -/
structure GetData where
  AddrFrom : String
  Kind : String
  ID : Bytes
deriving DecidableEq, Repr

/-- Go: `type Inv struct`; `Kind` is the field `Type`. -/
structure Inv where
  AddrFrom : String
  Kind : String
  Items : List Bytes
deriving DecidableEq, Repr

/-- Go: `type Tx struct`. -/
structure Tx where
  AddrFrom : String
  Transaction : Bytes
deriving DecidableEq, Repr

/-- Go: `type Version struct`. -/
structure Version where
  Version : Int
  BestHeight : Int
  AddrFrom : String
deriving DecidableEq, Repr

/-- The values handed to `GobEncode(data interface{})`. -/
inductive Payload
  | addr (p : Addr)
  | block (p : Block)
  | getblocks (p : GetBlocks)
  | getdata (p : GetData)
  | inv (p : Inv)
  | tx (p : Tx)
  | version (p : Version)
deriving DecidableEq, Repr

/-- One call of `SendData`: the address dialled, the request, and whether the
connection was established, in which case the request was written to it. -/
structure Packet where
  addr : String
  data : Bytes
  connected : Bool
deriving DecidableEq, Repr

/-- The process-wide variables of network.go together with the chain the
handlers are given, and two records of what happened: every call of
`SendData` and every block returned by `MineBlock`, in order. -/
structure Node where
  nodeAddress : String
  minerAddress : String
  KnownNodes : List String
  blocksInTransit : List Bytes
  memoryPool : List (String × Transaction)
  chain : Blockchain
  wire : List Packet
  mined : List blockchain.Block
deriving DecidableEq, Repr

/-- What network.go takes from outside the sources. -/
structure NetEnv where
  /-- The environment of the chain store. -/
  chainEnv : blockchain.Env
  /-- Library `net`: `net.Dial` to the address succeeds. -/
  dial : String → Bool
  /-- Library `io`: `io.Copy` of the request to the connection returns an
  error. -/
  copyFails : String → Bytes → Bool
  /-- Library `encoding/gob`: the encoder of `GobEncode`, `none` on error. -/
  gobEncode : Payload → Option Bytes
  /-- Library `encoding/gob`: decoders of the payloads, `none` on error. -/
  decAddr : Bytes → Option Addr
  decBlock : Bytes → Option Block
  decGetBlocks : Bytes → Option GetBlocks
  decGetData : Bytes → Option GetData
  decInv : Bytes → Option Inv
  decTx : Bytes → Option Tx
  decVersion : Bytes → Option Version
  /-- Absent chain method `GetBestHeight`. -/
  GetBestHeight : Blockchain → Int
  /-- Absent chain method `GetBlockHashes`. -/
  GetBlockHashes : Blockchain → List Bytes
  /-- Absent chain method `VerifyTransaction`. -/
  VerifyTransaction : Blockchain → Transaction → Bool
  /-- Absent transaction.go: `(tx *Transaction) Serialize`, `none` when it
  fails. -/
  SerializeTx : Transaction → Option Bytes
  /-- Absent transaction.go: `DeserializeTransaction`, `none` when it fails. -/
  DeserializeTransaction : Bytes → Option Transaction
  /-- Absent transaction.go: `CoinbaseTx(to, data)`. -/
  CoinbaseTx : String → String → Transaction
  /-- Absent unspent-output index: what `UTXOSet.Reindex` does to the chain
  and its store. -/
  Reindex : Blockchain → Blockchain

/-- How a handler ended: the node as it left it, and the message of the
panic that stopped it, if any. -/
structure Exec where
  node : Node
  panic : Option String
deriving DecidableEq, Repr

/-- Normal completion. -/
def done (node : Node) : Exec := ⟨node, none⟩

/-- A panic (`log.Panic`, or a run-time error). -/
def panicked (node : Node) (msg : String) : Exec := ⟨node, some msg⟩

/-- Sequencing: the rest of the code runs unless a panic has occurred. -/
def Exec.andThen (e : Exec) (rest : Node → Exec) : Exec :=
  match e.panic with
  | none => rest e.node
  | some _ => e

/-- Go: the loop of `CmdToBytes`; `i` is the byte index of the character in
the string.  The result is `none` when the index leaves the array. -/
def CmdToBytesLoop : List Char → Nat → Bytes → Option Bytes
  | [], _, bytes => some bytes
  | c :: rest, i, bytes =>
    if i < commandLength then
      CmdToBytesLoop rest (i + c.utf8Size) (bytes.set i (Fin.ofNat c.toNat))
    else none

/-- Go: `CmdToBytes`; `none` stands for the index-out-of-range panic. -/
def CmdToBytes (cmd : String) : Option Bytes :=
  CmdToBytesLoop cmd.data 0 (List.replicate commandLength 0)

/-- Go: `BytesToCmd`: the bytes other than zero, as a string. -/
def BytesToCmd (bytes : Bytes) : String :=
  bytesStr (bytes.filter fun b => b ≠ 0)

/-- Go: `append(CmdToBytes(cmd), payload...)` after `GobEncode(data)`, the
request of every `Send` function; a panic of either is reported. -/
def makeRequest (env : NetEnv) (cmd : String) (data : Payload) : Except String Bytes :=
  match env.gobEncode data with
  | none => .error "gob: encode error"
  | some payload =>
    match CmdToBytes cmd with
    | none => .error "index out of range"
    | some tag => .ok (tag ++ payload)

/-- Go: `SendData`. -/
def SendData (env : NetEnv) (node : Node) (addr : String) (data : Bytes) : Exec :=
  if env.dial addr then
    let node1 := { node with wire := node.wire ++ [⟨addr, data, true⟩] }
    if env.copyFails addr data then panicked node1 "io.Copy failed" else done node1
  else
    done { node with
      KnownNodes := node.KnownNodes.filter (fun known => known ≠ addr),
      wire := node.wire ++ [⟨addr, data, false⟩] }

/-- The common body of the `Send` functions: encode, prepend the command,
call `SendData`. -/
def sendRequest (env : NetEnv) (node : Node) (address cmd : String) (data : Payload) : Exec :=
  match makeRequest env cmd data with
  | .error msg => panicked node msg
  | .ok request => SendData env node address request

/-- Go: `SendInv`. -/
def SendInv (env : NetEnv) (node : Node) (address kind : String) (items : List Bytes) : Exec :=
  sendRequest env node address "inv" (.inv ⟨node.nodeAddress, kind, items⟩)

/-- Go: `SendVersion`. -/
def SendVersion (env : NetEnv) (node : Node) (address : String) : Exec :=
  let bestHeight := env.GetBestHeight node.chain
  sendRequest env node address "version" (.version ⟨version, bestHeight, node.nodeAddress⟩)

/-- Go: `SendGetBlocks`. -/
def SendGetBlocks (env : NetEnv) (node : Node) (address : String) : Exec :=
  sendRequest env node address "getblocks" (.getblocks ⟨node.nodeAddress⟩)

/-- Go: `SendGetData`. -/
def SendGetData (env : NetEnv) (node : Node) (address kind : String) (id : Bytes) : Exec :=
  sendRequest env node address "getdata" (.getdata ⟨node.nodeAddress, kind, id⟩)

/-- Go: `SendTx`. -/
def SendTx (env : NetEnv) (node : Node) (address : String) (txn : Transaction) : Exec :=
  match env.SerializeTx txn with
  | none => panicked node "transaction: serialize error"
  | some bytes => sendRequest env node address "tx" (.tx ⟨node.nodeAddress, bytes⟩)

/-- Go: `SendBlock`, with `Serialize` of block.go; its error is a panic. -/
def SendBlock (env : NetEnv) (node : Node) (addr : String) (b : blockchain.Block) : Exec :=
  match b.Serialize env.chainEnv with
  | (_, some err) => panicked node err
  | (bytes, none) => sendRequest env node addr "block" (.block ⟨node.nodeAddress, bytes⟩)

/-- Go: `NodeIsKnown`. -/
def NodeIsKnown (node : Node) (addr : String) : Bool :=
  node.KnownNodes.any (fun known => known = addr)

/-- Go: `request[commandLength:]` followed by the decoding of the payload;
the result is the panic message when the slice expression or the decoder
fails. -/
def decodePayload {α : Type} (dec : Bytes → Option α) (request : Bytes) : Except String α :=
  if request.length < commandLength then .error "slice bounds out of range"
  else
    match dec (request.drop commandLength) with
    | none => .error "gob: decode error"
    | some payload => .ok payload

/-- Go: `HandleVersion`. -/
def HandleVersion (env : NetEnv) (node : Node) (request : Bytes) : Exec :=
  match decodePayload env.decVersion request with
  | .error msg => panicked node msg
  | .ok payload =>
    let bestHeight := env.GetBestHeight node.chain
    let otherHeight := payload.BestHeight
    let sent :=
      if bestHeight < otherHeight then SendGetBlocks env node payload.AddrFrom
      else if bestHeight > otherHeight then SendVersion env node payload.AddrFrom
      else done node
    sent.andThen fun node1 =>
      if !NodeIsKnown node1 payload.AddrFrom then
        done { node1 with KnownNodes := node1.KnownNodes ++ [payload.AddrFrom] }
      else done node1

/-- Go: the map read `memoryPool[key]`: the value stored under the key, or
the zero value of `Transaction` when the key is absent. -/
def poolGet (pool : List (String × Transaction)) (key : String) : Transaction :=
  match pool.find? (fun kv => kv.1 = key) with
  | some kv => kv.2
  | none => Transaction.zero

/-- Go: `delete(memoryPool, key)`. -/
def poolDelete (pool : List (String × Transaction)) (key : String) :
    List (String × Transaction) :=
  pool.filter (fun kv => kv.1 ≠ key)

/-- Go: the map write `memoryPool[key] = tx`. -/
def poolSet (pool : List (String × Transaction)) (key : String) (tx : Transaction) :
    List (String × Transaction) :=
  if pool.any (fun kv => kv.1 = key) then
    pool.map (fun kv => if kv.1 = key then (key, tx) else kv)
  else pool ++ [(key, tx)]

/-- Modelled from the spec: the chain method `GetBlock` that `HandleGetData`
calls is not among the sources; it is the read-only lookup by hash of the
spec, which chain.go has as `GetBlockByHash`. -/
def GetBlock (env : NetEnv) (chain : Blockchain) (id : Bytes) :
    Option blockchain.Block × Option String :=
  chain.GetBlockByHash env.chainEnv id

/-- Go: the statement `if payload.Type == "tx"` of `HandleGetData`. -/
def getDataTx (env : NetEnv) (payload : GetData) (node : Node) : Exec :=
  if payload.Kind = "tx" then
    let txID := hex.EncodeToString payload.ID
    let tx := poolGet node.memoryPool txID
    SendTx env node payload.AddrFrom tx
  else done node

/-- Go: `HandleGetData`. -/
def HandleGetData (env : NetEnv) (node : Node) (request : Bytes) : Exec :=
  match decodePayload env.decGetData request with
  | .error msg => panicked node msg
  | .ok payload =>
    if payload.Kind = "block" then
      match GetBlock env node.chain payload.ID with
      | (some block, none) =>
        (SendBlock env node payload.AddrFrom block).andThen (getDataTx env payload)
      | _ => done node
    else getDataTx env payload node

/-- Go: the statement `if payload.Type == "block"` of `HandleInv`. -/
def invBlock (env : NetEnv) (payload : Inv) (node : Node) : Exec :=
  if payload.Kind = "block" then
    let node1 := { node with blocksInTransit := payload.Items }
    match payload.Items with
    | [] => panicked node1 "index out of range"
    | blockHash :: _ =>
      (SendGetData env node1 payload.AddrFrom "block" blockHash).andThen fun node2 =>
        let newInTransit := node2.blocksInTransit.filter (fun b => b ≠ blockHash)
        done { node2 with blocksInTransit := newInTransit }
  else done node

/-- Go: the statement `if payload.Type == "tx"` of `HandleInv`. -/
def invTx (env : NetEnv) (payload : Inv) (node : Node) : Exec :=
  if payload.Kind = "tx" then
    match payload.Items with
    | [] => panicked node "index out of range"
    | txID :: _ =>
      if (poolGet node.memoryPool (hex.EncodeToString txID)).HashID = [] then
        SendGetData env node payload.AddrFrom "tx" txID
      else done node
  else done node

/-- Go: `HandleInv`. -/
def HandleInv (env : NetEnv) (node : Node) (request : Bytes) : Exec :=
  match decodePayload env.decInv request with
  | .error msg => panicked node msg
  | .ok payload => (invBlock env payload node).andThen (invTx env payload)

/-- Modelled from the spec: the chain method `MineBlock` that `MineTx` calls
is not among the sources.  By the spec it mines a new block on the tip from
the given transactions (`CreateBlock` of block.go) and persists it
(`PostBlockToDB` of chain.go), as `AddBlock` of chain.go does with no
transactions.  Since the method returns only the block, an error inside it
is taken to stop the program; the result is the chain as left, the block,
and that error. -/
def MineBlock (env : NetEnv) (chain : Blockchain) (txs : List Transaction) :
    Blockchain × blockchain.Block × Option String :=
  match chain.GetLastHash with
  | (lastHash, some err) => (chain, (blockchain.CreateBlock env.chainEnv txs lastHash).1, some err)
  | (lastHash, none) =>
    match blockchain.CreateBlock env.chainEnv txs lastHash with
    | (newBlock, some err) => (chain, newBlock, some err)
    | (newBlock, none) =>
      match chain.PostBlockToDB env.chainEnv lastHash newBlock with
      | (err, chain1) => (chain1, newBlock, err)

/-- Go: the last loop of `MineTx`, over the peers known when it starts: an
inv request of type "block" for the new block to every peer but the node
itself. -/
def broadcastBlock (env : NetEnv) (newBlock : blockchain.Block) (peers : List String)
    (node : Node) : Exec :=
  peers.foldl
    (fun e peer => e.andThen fun n =>
      if peer ≠ n.nodeAddress then SendInv env n peer "block" [newBlock.Hash] else done n)
    (done node)

/-- Go: `MineTx`.  The recursion is bounded by the first argument; the result
is `none` when the bound is reached.  The loop over the pool visits the
entries in the order of the list; a map has every key once, so the value read
under the key of an entry is that of the entry.  The loop that clears the pool
reads `range tx` in the source, where no `tx` is in scope; it is taken as
`range txs`, the only slice of transactions of the function. -/
def MineTx (env : NetEnv) : Nat → Node → Option Exec
  | 0, _ => none
  | fuel + 1, node =>
    let verified :=
      (node.memoryPool.map fun kv => kv.2).filter (env.VerifyTransaction node.chain)
    if verified.length = 0 then some (done node)
    else
      let cbTx := env.CoinbaseTx node.minerAddress ""
      let txs := verified ++ [cbTx]
      match MineBlock env node.chain txs with
      | (chain1, _, some err) => some (panicked { node with chain := chain1 } err)
      | (chain1, newBlock, none) =>
        let node1 := { node with chain := env.Reindex chain1, mined := node.mined ++ [newBlock] }
        let pool := txs.foldl (fun pool tx => poolDelete pool (hex.EncodeToString tx.ID))
          node1.memoryPool
        let node2 := { node1 with memoryPool := pool }
        let sent := broadcastBlock env newBlock node2.KnownNodes node2
        match sent.panic with
        | some _ => some sent
        | none =>
          if sent.node.memoryPool.length > 0 then MineTx env fuel sent.node else some sent

/-- Go: `HandleTx`.  The first argument bounds the recursion of `MineTx`.
The test `len(minerAddress) > 0` is that the miner address is not the empty
string. -/
def HandleTx (env : NetEnv) (fuel : Nat) (node : Node) (request : Bytes) : Option Exec :=
  match decodePayload env.decTx request with
  | .error msg => some (panicked node msg)
  | .ok payload =>
    match env.DeserializeTransaction payload.Transaction with
    | none => some (panicked node "transaction: deserialize error")
    | some tx =>
      let node1 :=
        { node with memoryPool := poolSet node.memoryPool (hex.EncodeToString tx.ID) tx }
      match node1.KnownNodes with
      | [] => some (panicked node1 "index out of range")
      | hub :: _ =>
        if node1.nodeAddress = hub then
          some (node1.KnownNodes.foldl
            (fun e peer => e.andThen fun n =>
              if peer ≠ n.nodeAddress ∧ peer ≠ payload.AddrFrom then
                SendInv env n peer "tx" [tx.ID]
              else done n)
            (done node1))
        else if node1.memoryPool.length ≥ 2 ∧ node1.minerAddress ≠ "" then
          MineTx env fuel node1
        else some (done node1)

/-- Go: `RequestBlocks`: a getblocks request to every peer known when the
loop starts. -/
def RequestBlocks (env : NetEnv) (node : Node) : Exec :=
  node.KnownNodes.foldl
    (fun e nodeAddr => e.andThen fun n => SendGetBlocks env n nodeAddr)
    (done node)

/-- Go: `HandleAddr`. -/
def HandleAddr (env : NetEnv) (node : Node) (request : Bytes) : Exec :=
  match decodePayload env.decAddr request with
  | .error msg => panicked node msg
  | .ok payload =>
    RequestBlocks env { node with KnownNodes := node.KnownNodes ++ payload.AddrList }

/-- Modelled from the spec: the chain method `AddBlock(block)` that
`HandleBlock` calls is not among the sources (`AddBlock` of chain.go mines a
block of its own).  By the spec a received block goes through the storage
path of a locally mined block, which is `PostBlockToDB`; the method returns
nothing, so an error of that path is not seen by the caller. -/
def AddBlock (env : NetEnv) (chain : Blockchain) (block : blockchain.Block) : Blockchain :=
  (chain.PostBlockToDB env.chainEnv chain.LastHash block).2

/-- Go: `HandleBlock`.  A block that cannot be deserialized stops the
handler with a panic. -/
def HandleBlock (env : NetEnv) (node : Node) (request : Bytes) : Exec :=
  match decodePayload env.decBlock request with
  | .error msg => panicked node msg
  | .ok payload =>
    match blockchain.Deserialize env.chainEnv payload.Block with
    | (some block, none) =>
      let node1 := { node with chain := AddBlock env node.chain block }
      match node1.blocksInTransit with
      | blockHash :: _ =>
        (SendGetData env node1 payload.AddrFrom "block" blockHash).andThen fun node2 =>
          done { node2 with blocksInTransit := node2.blocksInTransit.drop 1 }
      | [] => done { node1 with chain := env.Reindex node1.chain }
    | (_, err) => panicked node (err.getD "nil pointer dereference")

/-- Go: `HandleGetBlocks`. -/
def HandleGetBlocks (env : NetEnv) (node : Node) (request : Bytes) : Exec :=
  match decodePayload env.decGetBlocks request with
  | .error msg => panicked node msg
  | .ok payload =>
    let blocks := env.GetBlockHashes node.chain
    SendInv env node payload.AddrFrom "block" blocks

/-- What `io.ReadAll` returns from a connection: the bytes received, and the
bytes of the backing array between the length and the capacity of the
slice. -/
structure Received where
  data : Bytes
  spare : Bytes
deriving DecidableEq, Repr

/-- Go: the slice expression `req[:commandLength]`.  It is legal up to the
capacity of the slice, and then it reads the backing array past the length;
beyond the capacity it is a run-time panic, for which `none` stands. -/
def Received.tag (req : Received) : Option Bytes :=
  if commandLength ≤ req.data.length + req.spare.length then
    some ((req.data ++ req.spare).take commandLength)
  else none

/-- Go: the `switch command` of `HandleConnection`.  The first argument
bounds the recursion of `MineTx`. -/
def dispatch (env : NetEnv) (fuel : Nat) (node : Node) (command : String) (req : Bytes) :
    Option Exec :=
  if command = "addr" then some (HandleAddr env node req)
  else if command = "block" then some (HandleBlock env node req)
  else if command = "inv" then some (HandleInv env node req)
  else if command = "getblocks" then some (HandleGetBlocks env node req)
  else if command = "getdata" then some (HandleGetData env node req)
  else if command = "tx" then HandleTx env fuel node req
  else if command = "version" then some (HandleVersion env node req)
  else some (done node)

/-- Go: `HandleConnection`, on what `io.ReadAll` returned: `none` for its
error, which is a panic, or the request.  The first argument bounds the
recursion of `MineTx`. -/
def HandleConnection (env : NetEnv) (fuel : Nat) (node : Node) (read : Option Received) :
    Option Exec :=
  match read with
  | none => some (panicked node "read error")
  | some req =>
    match req.tag with
    | none => some (panicked node "slice bounds out of range")
    | some tag => dispatch env fuel node (BytesToCmd tag) req.data

/-- The commands `HandleConnection` knows. -/
def knownCommand (command : String) : Bool :=
  ["addr", "block", "inv", "getblocks", "getdata", "tx", "version"].contains command

/-- The decoder of the payload of a known command accepts the bytes. -/
def payloadDecodes (env : NetEnv) (command : String) (body : Bytes) : Bool :=
  if command = "addr" then (env.decAddr body).isSome
  else if command = "block" then (env.decBlock body).isSome
  else if command = "inv" then (env.decInv body).isSome
  else if command = "getblocks" then (env.decGetBlocks body).isSome
  else if command = "getdata" then (env.decGetData body).isSome
  else if command = "tx" then (env.decTx body).isSome
  else if command = "version" then (env.decVersion body).isSome
  else false

/-- The pool is keyed as `HandleTx` keys it: every transaction is stored
under the hexadecimal form of its id. -/
def PoolKeyed (pool : List (String × Transaction)) : Prop :=
  ∀ kv ∈ pool, kv.1 = hex.EncodeToString kv.2.ID

/-- The environment causes no panic in a `Send` function: the encoder
accepts every payload, and the write to an established connection does not
fail. -/
def NoFault (env : NetEnv) : Prop :=
  (∀ p, ∃ body, env.gobEncode p = some body) ∧ (∀ a d, env.copyFails a d = false)

/-- Two nodes agree on everything but the peer registry and the record of
the calls of `SendData`. -/
def SameCore (a b : Node) : Prop :=
  a.nodeAddress = b.nodeAddress ∧ a.minerAddress = b.minerAddress ∧
  a.blocksInTransit = b.blocksInTransit ∧ a.memoryPool = b.memoryPool ∧
  a.chain = b.chain ∧ a.mined = b.mined

/-- The node after a call of `SendData` that did not panic. -/
def afterSend (env : NetEnv) (node : Node) (addr : String) (data : Bytes) : Node :=
  if env.dial addr then { node with wire := node.wire ++ [⟨addr, data, true⟩] }
  else
    { node with
      KnownNodes := node.KnownNodes.filter (fun known => known ≠ addr),
      wire := node.wire ++ [⟨addr, data, false⟩] }

/-- The command tag of a request on the wire: its first `commandLength`
bytes. -/
def Packet.command (p : Packet) : Bytes := p.data.take commandLength

/-! ## Closed examples for the protocol -/

/-- Payload format of the closed examples: every field is written as one
length byte followed by its bytes. -/
def writeFields (fields : List Bytes) : Bytes :=
  (fields.map fun f => (Fin.ofNat f.length : Byte) :: f).flatten

/-- The fields of a payload of the closed examples; the first argument bounds
their number. -/
def readFields : Nat → Bytes → List Bytes
  | 0, _ => []
  | _, [] => []
  | fuel + 1, n :: rest => rest.take n.val :: readFields fuel (rest.drop n.val)

/-- A small integer as one byte. -/
def intByte (n : Int) : Bytes := [Fin.ofNat n.toNat]

/-- The encoder of the closed examples. -/
def demoEncode : Payload → Bytes
  | .addr p => writeFields (p.AddrList.map strBytes)
  | .block p => writeFields [strBytes p.AddrFrom, p.Block]
  | .getblocks p => writeFields [strBytes p.AddrFrom]
  | .getdata p => writeFields [strBytes p.AddrFrom, strBytes p.Kind, p.ID]
  | .inv p => writeFields (strBytes p.AddrFrom :: strBytes p.Kind :: p.Items)
  | .tx p => writeFields [strBytes p.AddrFrom, p.Transaction]
  | .version p => writeFields [intByte p.Version, intByte p.BestHeight, strBytes p.AddrFrom]

/-- An environment for closed examples of the protocol.  Every peer but
"localhost:3009" can be dialled; payloads are written by `demoEncode`; a
transaction is serialized as its id; it verifies when it has an output; the
height of a chain is the number of blocks posted to its store. -/
def demoNet : NetEnv where
  chainEnv := blockchain.demoEnv
  dial := fun a => a ≠ "localhost:3009"
  copyFails := fun _ _ => false
  gobEncode := fun p => some (demoEncode p)
  decAddr := fun d => some ⟨(readFields d.length d).map bytesStr⟩
  decBlock := fun d =>
    match readFields d.length d with
    | [a, b] => some ⟨bytesStr a, b⟩
    | _ => none
  decGetBlocks := fun d =>
    match readFields d.length d with
    | [a] => some ⟨bytesStr a⟩
    | _ => none
  decGetData := fun d =>
    match readFields d.length d with
    | [a, k, i] => some ⟨bytesStr a, bytesStr k, i⟩
    | _ => none
  decInv := fun d =>
    match readFields d.length d with
    | a :: k :: items => some ⟨bytesStr a, bytesStr k, items⟩
    | _ => none
  decTx := fun d =>
    match readFields d.length d with
    | [a, t] => some ⟨bytesStr a, t⟩
    | _ => none
  decVersion := fun d =>
    match readFields d.length d with
    | [[v], [h], a] => some ⟨v.val, h.val, bytesStr a⟩
    | _ => none
  GetBestHeight := fun c => (c.Database.length / 2 : Nat)
  GetBlockHashes := fun _ => []
  VerifyTransaction := fun _ tx => !tx.Outputs.isEmpty
  SerializeTx := fun tx => some tx.ID
  DeserializeTransaction := fun d => some ⟨d, d, [], [⟨1, d⟩]⟩
  CoinbaseTx := fun recipient data =>
    ⟨[0], [0], [⟨[], -1, strBytes data⟩], [⟨20, strBytes recipient⟩]⟩
  Reindex := fun c => c

/-- A node of the closed examples: not the hub, with a miner address, an
empty pool, and a chain of two blocks. -/
def demoNode : Node :=
  { nodeAddress := "localhost:3001",
    minerAddress := "miner",
    KnownNodes := ["localhost:3000"],
    blocksInTransit := [],
    memoryPool := [],
    chain := blockchain.demoChain2,
    wire := [],
    mined := [] }

/-- A request as a peer of the closed examples writes it. -/
def demoRequest (cmd : String) (data : Payload) : Bytes :=
  (CmdToBytes cmd).getD [] ++ demoEncode data

/-- A getdata request of the closed examples for a transaction id that is
in no pool, sent by a peer that can be dialled. -/
def unknownTxRequest : Bytes :=
  demoRequest "getdata" (.getdata ⟨"localhost:3002", "tx", [170, 187]⟩)

/-- The same request from the peer that cannot be dialled. -/
def unknownTxRequestOffline : Bytes :=
  demoRequest "getdata" (.getdata ⟨"localhost:3009", "tx", [170, 187]⟩)

/-- The node of the closed examples with the peer that cannot be dialled in
its registry. -/
def demoNodeOffline : Node :=
  { demoNode with KnownNodes := ["localhost:3000", "localhost:3009"] }

/-- An inv request of the closed examples whose first hash occurs again
later in the list. -/
def repeatedInvRequest : Bytes :=
  demoRequest "inv" (.inv ⟨"localhost:3002", "block", [[1], [2], [1]]⟩)

/-- Two transactions that verify in the closed examples. -/
def demoTx1 : Transaction := ⟨[1], [1], [], [⟨1, [1]⟩]⟩

/-- The second transaction of the closed examples. -/
def demoTx2 : Transaction := ⟨[2], [2], [], [⟨1, [2]⟩]⟩

/-- The node of the closed examples with the two transactions in its pool. -/
def demoMiner : Node :=
  { demoNode with
    memoryPool := [(hex.EncodeToString [1], demoTx1), (hex.EncodeToString [2], demoTx2)] }

/-- What `io.ReadAll` returns for a request of fewer than 512 bytes: a slice
of capacity 512 over an array that is zero past the request. -/
def received (data : Bytes) : Received :=
  ⟨data, List.replicate (512 - data.length) 0⟩

/-- A request with the command `version` and a payload that is no version
payload. -/
def garbledVersion : Received :=
  received ((CmdToBytes "version").getD [] ++ [1])

/-- An inv request of type "block" with an empty item list. -/
def emptyInv : Received :=
  received (demoRequest "inv" (.inv ⟨"localhost:3002", "block", []⟩))

/-- A request of two bytes, the letters of the command `tx`. -/
def shortTx : Received := received (strBytes "tx")

/-- A request of five bytes that spell no command. -/
def helloRequest : Received := received (strBytes "hello")

/-- The node of the closed examples with one hash in its blocks-in-transit
queue. -/
def demoNodeSyncing : Node := { demoNode with blocksInTransit := [[9]] }

end network

namespace blockchain

/-! ## Lemmas on the store and on `PostBlockToDB` -/

theorem kvGet_kvSet (kv : KV) (k v k1 : Bytes) :
    kvGet (kvSet kv k v) k1 = if k = k1 then some v else kvGet kv k1 := rfl

/-- All outcomes of `PostBlockToDB`. -/
theorem PostBlockToDB_eq (env : Env) (chain : Blockchain) (lastHash : Bytes) (B : Block) :
    chain.PostBlockToDB env lastHash B =
      match env.gobEncode B with
      | none => (some "failed to encode block to bytes", chain)
      | some d =>
        if env.setFails chain.Database B.Hash d then
          (some "failed to set serialized block in database", chain)
        else if env.setFails (kvSet chain.Database B.Hash d) LAST_HASH_KEY B.Hash then
          (some "failed to set LAST_HASH in database", chain)
        else if env.commitFails chain.Database (postedStore chain.Database B d) then
          (some "commit failed", { chain with LastHash := B.Hash })
        else
          (none, { chain with LastHash := B.Hash, Database := postedStore chain.Database B d }) := by
  unfold Blockchain.PostBlockToDB Update postBlockTxn Block.Serialize postedStore
  cases chain with
  | mk path last db =>
    cases hEnc : env.gobEncode B with
    | none => simp
    | some d =>
      by_cases h1 : env.setFails db B.Hash d = true
      · simp [h1]
      · by_cases h2 : env.setFails (kvSet db B.Hash d) LAST_HASH_KEY B.Hash = true
        · simp [h1, h2]
        · by_cases h3 : env.commitFails db
              (kvSet (kvSet db B.Hash d) LAST_HASH_KEY B.Hash) = true
          · simp [h1, h2, h3]
          · simp [h1, h2, h3]

/-! ## C1: proof-of-work validation and the store -/

/-- C1 as stated fails.  In the environment of closed examples the block
`forgedBlock` does not pass `Validate`, yet `PostBlockToDB` on an empty store
returns no error, binds the hash of the block to its serialization, sets the
stored tip (absent before) to that hash and moves `chain.LastHash` to it. -/
theorem PostBlockToDB_stores_unvalidated_block :
    Validate demoEnv forgedBlock = false ∧
    (emptyChain.PostBlockToDB demoEnv [] forgedBlock).1 = none ∧
    kvGet (emptyChain.PostBlockToDB demoEnv [] forgedBlock).2.Database forgedBlock.Hash
      = some (forgedBlock.Serialize demoEnv).1 ∧
    kvGet emptyChain.Database LAST_HASH_KEY = none ∧
    kvGet (emptyChain.PostBlockToDB demoEnv [] forgedBlock).2.Database LAST_HASH_KEY
      = some forgedBlock.Hash ∧
    emptyChain.LastHash = [] ∧
    (emptyChain.PostBlockToDB demoEnv [] forgedBlock).2.LastHash = forgedBlock.Hash := by
  decide

/-- C1 amended: `PostBlockToDB` never consults `Validate`.  For every block,
valid or not, whose serialization, two writes and commit succeed, it returns
no error, leaves an entry keyed by the hash of the block in the store, and
moves the stored tip and `chain.LastHash` to that hash. -/
theorem PostBlockToDB_stores_without_validation (env : Env) (chain : Blockchain)
    (lastHash : Bytes) (B : Block) (d : Bytes)
    (hEnc : env.gobEncode B = some d)
    (hSet1 : env.setFails chain.Database B.Hash d = false)
    (hSet2 : env.setFails (kvSet chain.Database B.Hash d) LAST_HASH_KEY B.Hash = false)
    (hCommit : env.commitFails chain.Database (postedStore chain.Database B d) = false) :
    (chain.PostBlockToDB env lastHash B).1 = none ∧
    (chain.PostBlockToDB env lastHash B).2.Database = postedStore chain.Database B d ∧
    (kvGet (chain.PostBlockToDB env lastHash B).2.Database B.Hash).isSome = true ∧
    kvGet (chain.PostBlockToDB env lastHash B).2.Database LAST_HASH_KEY = some B.Hash ∧
    (chain.PostBlockToDB env lastHash B).2.LastHash = B.Hash := by
  rw [PostBlockToDB_eq]
  simp only [hEnc, hSet1, hSet2, hCommit, Bool.false_eq_true, if_false]
  refine ⟨trivial, trivial, ?_, ?_, trivial⟩
  · simp only [postedStore, kvGet_kvSet]
    by_cases h : LAST_HASH_KEY = B.Hash <;> simp [h]
  · simp [postedStore, kvGet_kvSet]

/-- The amended C1 at the forged block of the closed examples. -/
theorem PostBlockToDB_stores_without_validation_witness :
    (emptyChain.PostBlockToDB demoEnv [] forgedBlock).1 = none ∧
    (emptyChain.PostBlockToDB demoEnv [] forgedBlock).2.Database
      = postedStore emptyChain.Database forgedBlock [7, 1, 2] ∧
    (kvGet (emptyChain.PostBlockToDB demoEnv [] forgedBlock).2.Database
      forgedBlock.Hash).isSome = true ∧
    kvGet (emptyChain.PostBlockToDB demoEnv [] forgedBlock).2.Database LAST_HASH_KEY
      = some forgedBlock.Hash ∧
    (emptyChain.PostBlockToDB demoEnv [] forgedBlock).2.LastHash = forgedBlock.Hash :=
  PostBlockToDB_stores_without_validation demoEnv emptyChain [] forgedBlock [7, 1, 2]
    (by decide) (by decide) (by decide) (by decide)

/-! ## C2: atomicity of `PostBlockToDB` -/

/-- C2 as stated fails, in two ways.  For the block whose hash is the tip key
`PostBlockToDB` succeeds, but the store binds that hash to the tip value and
not to the serialized block.  For a store whose commit fails `PostBlockToDB`
returns an error and leaves the store as it was, but `chain.LastHash` has
already moved to the hash of the block. -/
theorem PostBlockToDB_not_atomic_as_stated :
    ((emptyChain.PostBlockToDB demoEnv [] tipKeyBlock).1 = none ∧
      kvGet (emptyChain.PostBlockToDB demoEnv [] tipKeyBlock).2.Database tipKeyBlock.Hash
        = some tipKeyBlock.Hash ∧
      (tipKeyBlock.Serialize demoEnv).2 = none ∧
      (tipKeyBlock.Serialize demoEnv).1 ≠ tipKeyBlock.Hash) ∧
    ((emptyChain.PostBlockToDB demoEnvNoCommit [] forgedBlock).1 ≠ none ∧
      (emptyChain.PostBlockToDB demoEnvNoCommit [] forgedBlock).2.Database
        = emptyChain.Database ∧
      (emptyChain.PostBlockToDB demoEnvNoCommit [] forgedBlock).2.LastHash = forgedBlock.Hash ∧
      forgedBlock.Hash ≠ emptyChain.LastHash) := by
  decide

/-- C2 amended: for every store and every block whose hash is not the tip
key, `PostBlockToDB` either succeeds, and then the store is the old one with
the hash of the block bound to the serialized block and the tip key bound to
that hash (every other key as before) and `chain.LastHash` is that hash; or
it returns an error, and then the store is unchanged, and `chain.LastHash`
is unchanged as well unless the serialization succeeded and it was the
commit that failed.  No other store content is ever produced. -/
theorem PostBlockToDB_atomic (env : Env) (chain : Blockchain) (lastHash : Bytes) (B : Block)
    (hKey : B.Hash ≠ LAST_HASH_KEY) :
    ((chain.PostBlockToDB env lastHash B).1 = none ∧
      (B.Serialize env).2 = none ∧
      kvGet (chain.PostBlockToDB env lastHash B).2.Database B.Hash = some (B.Serialize env).1 ∧
      kvGet (chain.PostBlockToDB env lastHash B).2.Database LAST_HASH_KEY = some B.Hash ∧
      (∀ k, k ≠ B.Hash → k ≠ LAST_HASH_KEY →
        kvGet (chain.PostBlockToDB env lastHash B).2.Database k = kvGet chain.Database k) ∧
      (chain.PostBlockToDB env lastHash B).2.LastHash = B.Hash) ∨
    ((chain.PostBlockToDB env lastHash B).1 ≠ none ∧
      (chain.PostBlockToDB env lastHash B).2.Database = chain.Database ∧
      ((chain.PostBlockToDB env lastHash B).2.LastHash = chain.LastHash ∨
        ((B.Serialize env).2 = none ∧
          env.commitFails chain.Database
            (postedStore chain.Database B (B.Serialize env).1) = true))) := by
  rw [PostBlockToDB_eq]
  unfold Block.Serialize
  cases hEnc : env.gobEncode B with
  | none => right; simp
  | some d =>
    by_cases h1 : env.setFails chain.Database B.Hash d = true
    · right; simp [h1]
    · by_cases h2 : env.setFails (kvSet chain.Database B.Hash d) LAST_HASH_KEY B.Hash = true
      · right; simp [h1, h2]
      · by_cases h3 : env.commitFails chain.Database (postedStore chain.Database B d) = true
        · right; simp [h1, h2, h3]
        · left
          simp only [h1, h2, h3, Bool.false_eq_true, if_false]
          refine ⟨trivial, trivial, ?_, ?_, ?_, trivial⟩
          · simp [postedStore, kvGet_kvSet, Ne.symm hKey]
          · simp [postedStore, kvGet_kvSet]
          · intro k hk1 hk2
            simp [postedStore, kvGet_kvSet, Ne.symm hk1, Ne.symm hk2]

/-- The amended C2 at the forged block of the closed examples. -/
theorem PostBlockToDB_atomic_witness :
    forgedBlock.Hash ≠ LAST_HASH_KEY ∧
    (emptyChain.PostBlockToDB demoEnv [] forgedBlock).1 = none ∧
    kvGet (emptyChain.PostBlockToDB demoEnv [] forgedBlock).2.Database forgedBlock.Hash
      = some (forgedBlock.Serialize demoEnv).1 :=
  ⟨by decide,
    ((PostBlockToDB_atomic demoEnv emptyChain [] forgedBlock (by decide)).resolve_right
      (fun h => h.1 (by decide))).1,
    ((PostBlockToDB_atomic demoEnv emptyChain [] forgedBlock (by decide)).resolve_right
      (fun h => h.1 (by decide))).2.2.1⟩

/-! ## C3: linkage of the stored chain -/

theorem CreateBlock_PrevHash (env : Env) (txs : List Transaction) (prev : Bytes) :
    (CreateBlock env txs prev).1.PrevHash = prev := rfl

theorem CreateBlock_Transactions (env : Env) (txs : List Transaction) (prev : Bytes) :
    (CreateBlock env txs prev).1.Transactions = txs := rfl

theorem LAST_HASH_KEY_length : LAST_HASH_KEY.length = 8 := by decide

/-- A successfully mined block never has the tip key as its hash. -/
theorem CreateBlock_Hash_ne_key (env : Env) (hRun : DigestIs32Bytes env)
    (txs : List Transaction) (prev : Bytes) (h : (CreateBlock env txs prev).2 = none) :
    (CreateBlock env txs prev).1.Hash ≠ LAST_HASH_KEY := by
  intro hEq
  have hLen := hRun _ h
  have hEq2 := congrArg List.length hEq
  rw [LAST_HASH_KEY_length] at hEq2
  change (env.Run _).2.1.length = 8 at hEq2
  omega

/-- What a successful `AddBlock` did. -/
theorem AddBlock_ok (env : Env) (chain next : Blockchain)
    (h : chain.AddBlock env = (none, next)) :
    ∃ T d, kvGet chain.Database LAST_HASH_KEY = some T ∧
      chain.GetLastHash = (T, none) ∧
      (CreateBlock env [] T).2 = none ∧
      minedOn env chain = (CreateBlock env [] T).1 ∧
      env.gobEncode (minedOn env chain) = some d ∧
      next = { chain with LastHash := (minedOn env chain).Hash,
                          Database := postedStore chain.Database (minedOn env chain) d } := by
  unfold Blockchain.AddBlock at h
  cases hGet : kvGet chain.Database LAST_HASH_KEY with
  | none => simp [Blockchain.GetLastHash, hGet] at h
  | some T =>
    have hLast : chain.GetLastHash = (T, none) := by simp [Blockchain.GetLastHash, hGet]
    have hMined : minedOn env chain = (CreateBlock env [] T).1 := by simp [minedOn, hLast]
    rw [hLast] at h
    simp only at h
    cases hC : CreateBlock env [] T with
    | mk b err =>
      rw [hC] at h
      have hb : minedOn env chain = b := by rw [hMined, hC]
      cases err with
      | some e => simp at h
      | none =>
        simp only at h
        rw [PostBlockToDB_eq] at h
        cases hEnc : env.gobEncode b with
        | none => simp [hEnc] at h
        | some d =>
          refine ⟨T, d, rfl, hLast, ?_, hMined, ?_, ?_⟩
          · rw [hC]
          · rw [hb, hEnc]
          · rw [hb]
            simp only [hEnc] at h
            split at h
            · simp at h
            · split at h
              · simp at h
              · split at h
                · simp at h
                · exact (Prod.mk.inj h).2.symm

/-- What a successful `InitBlockchain` on an empty store did. -/
theorem InitBlockchain_ok (env : Env) (address : String) (nodeID : Nat) (chain : Blockchain)
    (h : InitBlockchain env [] address nodeID = some (chain, none)) :
    (Genesis env (env.CoinbaseTX address GENESIS_DATA)).2 = none ∧
    ∃ d, env.gobEncode (Genesis env (env.CoinbaseTX address GENESIS_DATA)).1 = some d ∧
      chain.LastHash = (Genesis env (env.CoinbaseTX address GENESIS_DATA)).1.Hash ∧
      chain.Database = postedStore [] (Genesis env (env.CoinbaseTX address GENESIS_DATA)).1 d := by
  unfold InitBlockchain at h
  cases hEx : env.DBexists with
  | true => simp [hEx] at h
  | false =>
    simp only [hEx, Bool.false_eq_true, if_false] at h
    unfold Update initTxn at h
    simp only [kvGet] at h
    cases hG : Genesis env (env.CoinbaseTX address GENESIS_DATA) with
    | mk g err =>
      rw [hG] at h
      cases err with
      | some e => simp at h
      | none =>
        simp only [Block.Serialize] at h
        cases hEnc : env.gobEncode g with
        | none => simp [hEnc] at h
        | some d =>
          simp only [hEnc] at h
          refine ⟨rfl, d, rfl, ?_⟩
          by_cases h1 : env.setFails [] g.Hash d = true
          · simp [h1] at h
          · by_cases h2 : env.setFails (kvSet [] g.Hash d) LAST_HASH_KEY g.Hash = true
            · simp [h1, h2] at h
            · by_cases h3 : env.commitFails []
                  (kvSet (kvSet [] g.Hash d) LAST_HASH_KEY g.Hash) = true
              · simp [h1, h2, h3] at h
              · simp [h1, h2, h3] at h
                subst h
                exact ⟨rfl, rfl⟩

theorem Linked_getLast (blocks : List Block) (hL : Linked blocks) (g : Block)
    (hg : blocks.getLast? = some g) : g.PrevHash = [] := by
  induction blocks with
  | nil => simp at hg
  | cons b rest ih =>
    cases rest with
    | nil =>
      simp at hg
      subst hg
      exact hL
    | cons p more =>
      have hL2 : Linked (p :: more) := hL.2
      apply ih hL2
      simpa [List.getLast?_cons_cons] using hg

/-- The invariant of the chains built by `InitBlockchain` and `AddBlock`. -/
theorem Built_ChainInv (env : Env) (hRun : DigestIs32Bytes env) (chain : Blockchain)
    (blocks : List Block) (h : Built env chain blocks) : ChainInv env chain blocks := by
  induction h with
  | init address nodeID chain hInit =>
    obtain ⟨hErr, d, hEnc, hLast, hDb⟩ := InitBlockchain_ok env address nodeID chain hInit
    have hNe : (Genesis env (env.CoinbaseTX address GENESIS_DATA)).1.Hash ≠ LAST_HASH_KEY :=
      CreateBlock_Hash_ne_key env hRun _ _ hErr
    refine ⟨rfl, ⟨_, [], rfl, hLast, ?_, ?_⟩, ?_⟩
    · rw [hDb]; simp [postedStore, kvGet_kvSet]
    · rw [hDb]
      simp only [postedStore, kvGet_kvSet, Block.Serialize]
      rw [if_neg (Ne.symm hNe)]
      simp [hEnc]
    · intro k v hk hkv
      rw [hDb] at hkv
      simp only [postedStore, kvGet_kvSet] at hkv
      rw [if_neg (Ne.symm hk)] at hkv
      split at hkv
      · rename_i hk2
        refine ⟨_, List.mem_singleton.mpr rfl, hk2, ?_⟩
        simp only [Block.Serialize, hEnc]
        simp only [Option.some.injEq] at hkv
        rw [hkv]
      · simp [kvGet] at hkv
  | add chain next blocks hB hAdd ih =>
    obtain ⟨T, d, hGet, hLast, hErr, hMined, hEnc, hNext⟩ := AddBlock_ok env chain next hAdd
    obtain ⟨hLinked, ⟨tip, rest, hBlocks, hMem, hTip, hTipStored⟩, hEntries⟩ := ih
    have hT : T = tip.Hash := by
      rw [hTip] at hGet
      exact (Option.some.inj hGet).symm
    have hNe : (minedOn env chain).Hash ≠ LAST_HASH_KEY := by
      rw [hMined]; exact CreateBlock_Hash_ne_key env hRun _ _ hErr
    refine ⟨?_, ⟨_, blocks, rfl, ?_, ?_, ?_⟩, ?_⟩
    · rw [hBlocks]
      refine ⟨?_, hBlocks ▸ hLinked⟩
      rw [hMined, CreateBlock_PrevHash, hT]
    · rw [hNext]
    · rw [hNext]; simp [postedStore, kvGet_kvSet]
    · rw [hNext]
      simp only [postedStore, kvGet_kvSet, Block.Serialize]
      rw [if_neg (Ne.symm hNe)]
      simp [hEnc]
    · intro k v hk hkv
      rw [hNext] at hkv
      simp only [postedStore, kvGet_kvSet] at hkv
      rw [if_neg (Ne.symm hk)] at hkv
      split at hkv
      · rename_i hk2
        refine ⟨_, List.mem_cons_self _ _, hk2, ?_⟩
        simp only [Block.Serialize, hEnc]
        simp only [Option.some.injEq] at hkv
        rw [hkv]
      · obtain ⟨b, hb, hbk, hbs⟩ := hEntries k v hk hkv
        exact ⟨b, List.mem_cons_of_mem _ hb, hbk, hbs⟩

/-- C3: on every chain built by `InitBlockchain` on an empty store and
successful calls of `AddBlock` (the proof of work returning 32-byte hashes),
the mined blocks are linked by `PrevHash` down to a genesis block with empty
`PrevHash`, the newest block is the tip and is stored under its hash, and
every stored entry other than the tip pointer is one of these blocks under
its hash; and each further successful `AddBlock` on a store with tip `T`
stores a block whose `PrevHash` is `T` and makes it the new tip. -/
theorem chain_linked_by_PrevHash (env : Env) (hRun : DigestIs32Bytes env)
    (chain : Blockchain) (blocks : List Block) (h : Built env chain blocks) :
    ChainInv env chain blocks ∧
    (∀ g, blocks.getLast? = some g → g.PrevHash = []) ∧
    (∀ next, chain.AddBlock env = (none, next) →
      ∃ T, kvGet chain.Database LAST_HASH_KEY = some T ∧
        (minedOn env chain).PrevHash = T ∧
        next.LastHash = (minedOn env chain).Hash ∧
        kvGet next.Database LAST_HASH_KEY = some (minedOn env chain).Hash ∧
        kvGet next.Database (minedOn env chain).Hash
          = some ((minedOn env chain).Serialize env).1) := by
  have hInv := Built_ChainInv env hRun chain blocks h
  refine ⟨hInv, fun g hg => Linked_getLast blocks hInv.1 g hg, ?_⟩
  intro next hAdd
  obtain ⟨T, d, hGet, _, _, hMined, _, _⟩ := AddBlock_ok env chain next hAdd
  obtain ⟨_, ⟨tip, rest, hBlocks, hLast, hTip, hStored⟩, _⟩ :=
    Built_ChainInv env hRun next _ (Built.add chain next blocks h hAdd)
  obtain ⟨rfl, _⟩ := List.cons.inj hBlocks
  refine ⟨T, hGet, ?_, hLast, hTip, hStored⟩
  rw [hMined, CreateBlock_PrevHash]

/-- C3 on the chain of the closed examples: a genesis block and one added
block. -/
theorem chain_linked_by_PrevHash_witness :
    ChainInv demoEnv demoChain2 [minedOn demoEnv demoChain1, demoGenesis] ∧
    (∀ g, [minedOn demoEnv demoChain1, demoGenesis].getLast? = some g → g.PrevHash = []) ∧
    (∀ next, demoChain2.AddBlock demoEnv = (none, next) →
      ∃ T, kvGet demoChain2.Database LAST_HASH_KEY = some T ∧
        (minedOn demoEnv demoChain2).PrevHash = T ∧
        next.LastHash = (minedOn demoEnv demoChain2).Hash ∧
        kvGet next.Database LAST_HASH_KEY = some (minedOn demoEnv demoChain2).Hash ∧
        kvGet next.Database (minedOn demoEnv demoChain2).Hash
          = some ((minedOn demoEnv demoChain2).Serialize demoEnv).1) :=
  chain_linked_by_PrevHash demoEnv
    (fun b _ => List.length_replicate 32 (Fin.ofNat b.Transactions.length))
    demoChain2 [minedOn demoEnv demoChain1, demoGenesis]
    (Built.add demoChain1 demoChain2 [demoGenesis]
      (Built.init "miner" 0 demoChain1 (by decide)) (by decide))

/-! ## C4: the iterator -/

/-- One call of `IterateNext` on a stored block. -/
theorem IterateNext_stored (env : Env) (iter : BlockchainIterator) (b : Block)
    (hCur : iter.CurrentHash = b.Hash) (hStored : Stored env iter.Chain b) :
    iter.IterateNext env = ((some b, none), { iter with CurrentHash := b.PrevHash }) := by
  unfold BlockchainIterator.IterateNext
  rw [hCur, hStored]

/-- Iteration from any position of a linked, stored chain. -/
theorem iterate_from (env : Env) (chain : Blockchain) (b : Block) (rest : List Block)
    (hLinked : Linked (b :: rest)) (hStored : ∀ x ∈ b :: rest, Stored env chain x) :
    iterate env (b :: rest).length { CurrentHash := b.Hash, Chain := chain }
      = ((b :: rest).map (fun x => (some x, none)), { CurrentHash := [], Chain := chain }) := by
  induction rest generalizing b with
  | nil =>
    have h1 := IterateNext_stored env { CurrentHash := b.Hash, Chain := chain } b rfl
      (hStored b (List.mem_singleton.mpr rfl))
    have hPrev : b.PrevHash = [] := hLinked
    simp only [List.length_singleton, iterate, h1, hPrev, List.map]
  | cons p more ih =>
    have h1 := IterateNext_stored env { CurrentHash := b.Hash, Chain := chain } b rfl
      (hStored b (List.mem_cons_self _ _))
    have hPrev : b.PrevHash = p.Hash := hLinked.1
    have h2 := ih p hLinked.2 (fun x hx => hStored x (List.mem_cons_of_mem _ hx))
    simp only [List.length_cons, iterate, h1, hPrev, List.map] at h2 ⊢
    obtain ⟨h2a, h2b⟩ := Prod.mk.inj h2
    rw [h2a, h2b]

/-- C4: if the store of a chain holds the blocks `tip :: rest`, linked by
`PrevHash` from the tip `chain.LastHash` down to a genesis block with empty
`PrevHash`, then the first `n` calls of `IterateNext` on the iterator made by
`NewIterator`, `n` being the number of blocks, return exactly these blocks in
this order, each without error, and leave the iterator with an empty
`CurrentHash`. -/
theorem NewIterator_yields_chain (env : Env) (chain : Blockchain) (tip : Block)
    (rest : List Block) (hTip : chain.LastHash = tip.Hash)
    (hLinked : Linked (tip :: rest))
    (hStored : ∀ b ∈ tip :: rest, Stored env chain b) :
    iterate env (tip :: rest).length chain.NewIterator
      = ((tip :: rest).map (fun b => (some b, none)), { CurrentHash := [], Chain := chain }) := by
  unfold Blockchain.NewIterator
  rw [hTip]
  exact iterate_from env chain tip rest hLinked hStored

theorem refEnv_Deserialize (b : Block) :
    Deserialize refEnv (natBytes (Encodable.encode b)) = (some b, none) := by
  simp [Deserialize, refEnv, natBytes, bytesNat]

theorem refChain2_Stored : ∀ b ∈ [refSecond, refGenesis], Stored refEnv refChain2 b := by
  have h1 : LAST_HASH_KEY ≠ refSecond.Hash := by decide
  have h2 : LAST_HASH_KEY ≠ refGenesis.Hash := by decide
  have h3 : refSecond.Hash ≠ refGenesis.Hash := by decide
  intro b hb
  simp only [List.mem_cons, List.mem_singleton, List.not_mem_nil, or_false] at hb
  rcases hb with rfl | rfl
  · simp only [Stored, Blockchain.GetBlockByHash, refChain2, postedStore, kvGet_kvSet,
      if_neg h1, if_true]
    exact refEnv_Deserialize _
  · simp only [Stored, Blockchain.GetBlockByHash, refChain2, refChain1, postedStore,
      kvGet_kvSet, if_neg h2, if_neg h3, if_true]
    exact refEnv_Deserialize _

/-- C4 on a store holding a genesis block and one block mined on it: two calls
return the mined block, then the genesis block. -/
theorem NewIterator_yields_chain_witness :
    iterate refEnv 2 refChain2.NewIterator
      = ([(some refSecond, none), (some refGenesis, none)],
          { CurrentHash := [], Chain := refChain2 }) :=
  NewIterator_yields_chain refEnv refChain2 refSecond [refGenesis] rfl
    ⟨(rfl : refSecond.PrevHash = refGenesis.Hash), (rfl : refGenesis.PrevHash = [])⟩
    refChain2_Stored

/-! ## C5: the two encodings of a block -/

theorem fromHexChar_digit : ∀ n : Fin 16, hex.fromHexChar (hex.digit n.val) = some n.val := by
  decide

/-- Decoding the hexadecimal form of a byte string gives the byte string. -/
theorem decodeChars_encodeChars (bs : Bytes) :
    hex.decodeChars (hex.encodeChars bs) = some bs := by
  induction bs with
  | nil => rfl
  | cons b rest ih =>
    have hHi : b.val / 16 < 16 := by
      have := b.isLt
      omega
    have hLo : b.val % 16 < 16 := Nat.mod_lt _ (by decide)
    have h1 := fromHexChar_digit ⟨b.val / 16, hHi⟩
    have h2 := fromHexChar_digit ⟨b.val % 16, hLo⟩
    simp only at h1 h2
    have hb : (Fin.ofNat (b.val / 16 * 16 + b.val % 16) : Fin 256) = b := by
      apply Fin.ext
      have := b.isLt
      simp only [Fin.ofNat, Nat.div_add_mod']
      omega
    simp only [hex.encodeChars, hex.decodeChars, h1, h2, ih, hb]

theorem DecodeString_EncodeToString (bs : Bytes) :
    hex.DecodeString (hex.EncodeToString bs) = some bs :=
  decodeChars_encodeChars bs

/-- C5: when the gob and json libraries keep their contracts, every block
passes unchanged through both encodings.  `Serialize` succeeds and
`Deserialize` returns the block from its result; `MarshalJSON` succeeds, the
JSON form carries `PrevHash` and `Hash` as their hexadecimal strings, and
`UnmarshalJSON` on its result succeeds and sets every field of the receiver
to that of the block. -/
theorem Block_encodings_roundtrip (env : Env) (hGob : GobLossless env)
    (hJSON : JSONLossless env) (B recv : Block) :
    ((B.Serialize env).2 = none ∧
      Deserialize env (B.Serialize env).1 = (some B, none)) ∧
    ((B.MarshalJSON env).2 = none ∧
      (∃ aux, env.jsonUnmarshal (B.MarshalJSON env).1 = some aux ∧
        aux.prev_hash = hex.EncodeToString B.PrevHash ∧
        aux.hash = hex.EncodeToString B.Hash) ∧
      recv.UnmarshalJSON env (B.MarshalJSON env).1 = (B, none)) := by
  obtain ⟨d, hEnc, hDec⟩ := hGob B
  obtain ⟨j, hMar, hUnm⟩ := hJSON B
  refine ⟨⟨?_, ?_⟩, ?_, ?_, ?_⟩
  · simp [Block.Serialize, hEnc]
  · simp [Block.Serialize, hEnc, Deserialize, hDec]
  · simp [Block.MarshalJSON, hMar]
  · refine ⟨B.toJSON, ?_, rfl, rfl⟩
    simp [Block.MarshalJSON, hMar, hUnm]
  · simp only [Block.MarshalJSON, hMar, Block.UnmarshalJSON, hUnm]
    simp only [Block.toJSON, DecodeString_EncodeToString]

/-- C5 with the lossless codec of the closed examples, on a block with two
transactions. -/
theorem Block_encodings_roundtrip_witness :
    ((sampleBlock.Serialize refEnv).2 = none ∧
      Deserialize refEnv (sampleBlock.Serialize refEnv).1 = (some sampleBlock, none)) ∧
    ((sampleBlock.MarshalJSON refEnv).2 = none ∧
      (∃ aux, refEnv.jsonUnmarshal (sampleBlock.MarshalJSON refEnv).1 = some aux ∧
        aux.prev_hash = hex.EncodeToString sampleBlock.PrevHash ∧
        aux.hash = hex.EncodeToString sampleBlock.Hash) ∧
      forgedBlock.UnmarshalJSON refEnv (sampleBlock.MarshalJSON refEnv).1
        = (sampleBlock, none)) :=
  Block_encodings_roundtrip refEnv
    (fun b => ⟨natBytes (Encodable.encode b), rfl, by simp [refEnv, natBytes, bytesNat]⟩)
    (fun b => ⟨natBytes (Encodable.encode b.toJSON), rfl,
      by simp [refEnv, natBytes, bytesNat]⟩)
    sampleBlock forgedBlock

end blockchain

namespace network

open blockchain (Transaction Blockchain)

/-! ## Lemmas on sending -/

theorem SendData_ok (env : NetEnv) (hOK : NoFault env) (node : Node) (addr : String)
    (data : Bytes) : SendData env node addr data = done (afterSend env node addr data) := by
  unfold SendData afterSend
  by_cases h : env.dial addr = true
  · simp [h, hOK.2 addr data]
  · simp [h]

theorem sendRequest_ok (env : NetEnv) (hOK : NoFault env) (node : Node) (addr cmd : String)
    (data : Payload) (tag body : Bytes) (hTag : CmdToBytes cmd = some tag)
    (hBody : env.gobEncode data = some body) :
    sendRequest env node addr cmd data = done (afterSend env node addr (tag ++ body)) := by
  unfold sendRequest makeRequest
  simp only [hBody, hTag]
  exact SendData_ok env hOK node addr _

theorem afterSend_wire (env : NetEnv) (node : Node) (addr : String) (data : Bytes) :
    (afterSend env node addr data).wire = node.wire ++ [⟨addr, data, env.dial addr⟩] := by
  unfold afterSend
  by_cases h : env.dial addr = true
  · simp [h]
  · simp [h]

theorem afterSend_nodeAddress (env : NetEnv) (node : Node) (addr : String) (data : Bytes) :
    (afterSend env node addr data).nodeAddress = node.nodeAddress := by
  unfold afterSend
  split <;> rfl

theorem afterSend_memoryPool (env : NetEnv) (node : Node) (addr : String) (data : Bytes) :
    (afterSend env node addr data).memoryPool = node.memoryPool := by
  unfold afterSend
  split <;> rfl

theorem afterSend_mined (env : NetEnv) (node : Node) (addr : String) (data : Bytes) :
    (afterSend env node addr data).mined = node.mined := by
  unfold afterSend
  split <;> rfl

theorem afterSend_blocksInTransit (env : NetEnv) (node : Node) (addr : String)
    (data : Bytes) : (afterSend env node addr data).blocksInTransit = node.blocksInTransit := by
  unfold afterSend
  split <;> rfl

theorem afterSend_minerAddress (env : NetEnv) (node : Node) (addr : String) (data : Bytes) :
    (afterSend env node addr data).minerAddress = node.minerAddress := by
  unfold afterSend
  split <;> rfl

theorem CmdToBytes_getblocks :
    CmdToBytes "getblocks" = some [103, 101, 116, 98, 108, 111, 99, 107, 115, 0, 0, 0] := by
  decide

theorem CmdToBytes_version :
    CmdToBytes "version" = some [118, 101, 114, 115, 105, 111, 110, 0, 0, 0, 0, 0] := by
  decide

theorem CmdToBytes_getdata :
    CmdToBytes "getdata" = some [103, 101, 116, 100, 97, 116, 97, 0, 0, 0, 0, 0] := by
  decide

theorem CmdToBytes_inv :
    CmdToBytes "inv" = some [105, 110, 118, 0, 0, 0, 0, 0, 0, 0, 0, 0] := by
  decide

theorem CmdToBytes_tx :
    CmdToBytes "tx" = some [116, 120, 0, 0, 0, 0, 0, 0, 0, 0, 0, 0] := by
  decide

/-! ## C6: the reply to a version message -/

/-- The node `HandleVersion` leaves, given the node the reply left. -/
theorem HandleVersion_tail (node1 : Node) (addr : String) :
    ((done node1).andThen fun n =>
      if !NodeIsKnown n addr then
        done { n with KnownNodes := n.KnownNodes ++ [addr] }
      else done n).panic = none ∧
    ((done node1).andThen fun n =>
      if !NodeIsKnown n addr then
        done { n with KnownNodes := n.KnownNodes ++ [addr] }
      else done n).node.wire = node1.wire := by
  simp only [Exec.andThen, done]
  split <;> exact ⟨rfl, rfl⟩

/-- C6: a version message that decodes to `payload` is answered as follows,
in an environment that causes no panic in a `Send` function.  If the local
height is below the advertised one, `HandleVersion` makes exactly one call of
`SendData`, a getblocks request to the sender; if it is above, exactly one
call, a version request to the sender carrying the local height; if the two
are equal, no call.  The call reaches the sender when the dial succeeds. -/
theorem HandleVersion_reply (env : NetEnv) (hOK : NoFault env) (node : Node)
    (request : Bytes) (payload : Version)
    (hReq : decodePayload env.decVersion request = .ok payload) :
    (HandleVersion env node request).panic = none ∧
    CmdToBytes "getblocks" ≠ CmdToBytes "version" ∧
    (env.GetBestHeight node.chain < payload.BestHeight →
      ∃ tag body, CmdToBytes "getblocks" = some tag ∧
        env.gobEncode (.getblocks ⟨node.nodeAddress⟩) = some body ∧
        (HandleVersion env node request).node.wire
          = node.wire ++ [⟨payload.AddrFrom, tag ++ body, env.dial payload.AddrFrom⟩] ∧
        Packet.command ⟨payload.AddrFrom, tag ++ body, env.dial payload.AddrFrom⟩ = tag) ∧
    (env.GetBestHeight node.chain > payload.BestHeight →
      ∃ tag body, CmdToBytes "version" = some tag ∧
        env.gobEncode
          (.version ⟨version, env.GetBestHeight node.chain, node.nodeAddress⟩) = some body ∧
        (HandleVersion env node request).node.wire
          = node.wire ++ [⟨payload.AddrFrom, tag ++ body, env.dial payload.AddrFrom⟩] ∧
        Packet.command ⟨payload.AddrFrom, tag ++ body, env.dial payload.AddrFrom⟩ = tag) ∧
    (env.GetBestHeight node.chain = payload.BestHeight →
      (HandleVersion env node request).node.wire = node.wire) := by
  unfold HandleVersion
  rw [hReq]
  simp only
  by_cases hLt : env.GetBestHeight node.chain < payload.BestHeight
  · obtain ⟨body, hBody⟩ := hOK.1 (.getblocks ⟨node.nodeAddress⟩)
    have hSend := sendRequest_ok env hOK node payload.AddrFrom "getblocks" _ _ body
      CmdToBytes_getblocks hBody
    have hTail := HandleVersion_tail (afterSend env node payload.AddrFrom
      ([103, 101, 116, 98, 108, 111, 99, 107, 115, 0, 0, 0] ++ body)) payload.AddrFrom
    simp only [if_pos hLt, SendGetBlocks, hSend]
    refine ⟨hTail.1, by decide, fun _ => ?_, fun h => absurd hLt (by omega),
      fun h => absurd hLt (by omega)⟩
    refine ⟨_, body, CmdToBytes_getblocks, hBody, ?_, ?_⟩
    · rw [hTail.2, afterSend_wire]
    · simp [Packet.command, commandLength]
  · by_cases hGt : env.GetBestHeight node.chain > payload.BestHeight
    · obtain ⟨body, hBody⟩ :=
        hOK.1 (.version ⟨version, env.GetBestHeight node.chain, node.nodeAddress⟩)
      have hSend := sendRequest_ok env hOK node payload.AddrFrom "version" _ _ body
        CmdToBytes_version hBody
      have hTail := HandleVersion_tail (afterSend env node payload.AddrFrom
        ([118, 101, 114, 115, 105, 111, 110, 0, 0, 0, 0, 0] ++ body)) payload.AddrFrom
      simp only [if_neg hLt, if_pos hGt, SendVersion, hSend]
      refine ⟨hTail.1, by decide, fun h => absurd h hLt, fun _ => ?_,
        fun h => absurd hGt (by omega)⟩
      refine ⟨_, body, CmdToBytes_version, hBody, ?_, ?_⟩
      · rw [hTail.2, afterSend_wire]
      · simp [Packet.command, commandLength]
    · have hTail := HandleVersion_tail node payload.AddrFrom
      simp only [if_neg hLt, if_neg hGt]
      exact ⟨hTail.1, by decide, fun h => absurd h hLt, fun h => absurd h hGt,
        fun _ => hTail.2⟩

theorem demoNet_NoFault : NoFault demoNet :=
  ⟨fun p => ⟨demoEncode p, rfl⟩, fun _ _ => rfl⟩

/-- C6 at a node of height 2 that receives a version message advertising
height 1: it does not panic and makes one call of `SendData`, a version
request to the sender. -/
theorem HandleVersion_reply_witness :
    decodePayload demoNet.decVersion
        (demoRequest "version" (.version ⟨1, 1, "localhost:3002"⟩))
      = .ok ⟨1, 1, "localhost:3002"⟩ ∧
    demoNet.GetBestHeight demoNode.chain = 2 ∧
    (HandleVersion demoNet demoNode
        (demoRequest "version" (.version ⟨1, 1, "localhost:3002"⟩))).panic = none ∧
    (HandleVersion demoNet demoNode
        (demoRequest "version" (.version ⟨1, 1, "localhost:3002"⟩))).node.wire
      = [⟨"localhost:3002", demoRequest "version" (.version ⟨1, 2, "localhost:3001"⟩), true⟩] :=
  ⟨by decide, by decide,
    (HandleVersion_reply demoNet demoNet_NoFault demoNode
      (demoRequest "version" (.version ⟨1, 1, "localhost:3002"⟩)) ⟨1, 1, "localhost:3002"⟩
      (by decide)).1,
    by decide⟩

/-! ## C7: a getdata request for an unknown transaction -/

/-- C7 fails on the code.  The node of the closed examples has an empty
pool; a getdata request of type "tx" for the id `aabb` decodes, and
`HandleGetData` answers it with one call of `SendData`: a tx request to the
requester that carries the serialization of the zero transaction.  When the
requester cannot be dialled, the call removes it from the peer registry. -/
theorem HandleGetData_unknown_tx_sends :
    decodePayload demoNet.decGetData unknownTxRequest
      = .ok ⟨"localhost:3002", "tx", [170, 187]⟩ ∧
    demoNode.memoryPool.find? (fun kv => kv.1 = hex.EncodeToString [170, 187]) = none ∧
    (HandleGetData demoNet demoNode unknownTxRequest).panic = none ∧
    (HandleGetData demoNet demoNode unknownTxRequest).node.wire
      = [⟨"localhost:3002",
          demoRequest "tx" (.tx ⟨"localhost:3001", (demoNet.SerializeTx Transaction.zero).getD []⟩),
          true⟩] ∧
    demoNodeOffline.KnownNodes = ["localhost:3000", "localhost:3009"] ∧
    (HandleGetData demoNet demoNodeOffline unknownTxRequestOffline).node.KnownNodes
      = ["localhost:3000"] := by
  decide

/-! ## C8: an inv message of type "block" -/

/-- C8 as stated fails: for the advertised list `[01, 02, 01]` the queue is
left as `[02]`, not as the list without its first element, `[02, 01]`. -/
theorem HandleInv_drops_repeated_hash :
    decodePayload demoNet.decInv repeatedInvRequest
      = .ok ⟨"localhost:3002", "block", [[1], [2], [1]]⟩ ∧
    (HandleInv demoNet demoNode repeatedInvRequest).panic = none ∧
    (HandleInv demoNet demoNode repeatedInvRequest).node.blocksInTransit = [[2]] ∧
    (HandleInv demoNet demoNode repeatedInvRequest).node.blocksInTransit ≠ [[2], [1]] := by
  decide

/-- C8 amended: an inv message of type "block" that decodes to a payload
with the hash list `h0 :: rest` makes `HandleInv`, in an environment that
causes no panic in a `Send` function, call `SendData` exactly once, with a
getdata request for block `h0` to the sender, and leaves the queue equal to
`rest` without the occurrences of `h0`, in the order of `rest`; this is
`rest` itself when `h0` does not occur in it again. -/
theorem HandleInv_block (env : NetEnv) (hOK : NoFault env) (node : Node) (request : Bytes)
    (payload : Inv) (h0 : Bytes) (rest : List Bytes)
    (hReq : decodePayload env.decInv request = .ok payload)
    (hKind : payload.Kind = "block") (hItems : payload.Items = h0 :: rest) :
    (HandleInv env node request).panic = none ∧
    (∃ tag body, CmdToBytes "getdata" = some tag ∧
      env.gobEncode (.getdata ⟨node.nodeAddress, "block", h0⟩) = some body ∧
      (HandleInv env node request).node.wire
        = node.wire ++ [⟨payload.AddrFrom, tag ++ body, env.dial payload.AddrFrom⟩]) ∧
    (HandleInv env node request).node.blocksInTransit = rest.filter (fun b => b ≠ h0) ∧
    (h0 ∉ rest → (HandleInv env node request).node.blocksInTransit = rest) := by
  obtain ⟨body, hBody⟩ := hOK.1 (.getdata ⟨node.nodeAddress, "block", h0⟩)
  have hSend := sendRequest_ok env hOK { node with blocksInTransit := payload.Items }
    payload.AddrFrom "getdata" (.getdata ⟨node.nodeAddress, "block", h0⟩) _ body
    CmdToBytes_getdata hBody
  have hTx : ∀ n : Node, invTx env payload n = done n := by
    intro n
    simp [invTx, hKind]
  have hRun : HandleInv env node request =
      done { afterSend env { node with blocksInTransit := payload.Items } payload.AddrFrom
              ([103, 101, 116, 100, 97, 116, 97, 0, 0, 0, 0, 0] ++ body) with
            blocksInTransit := (h0 :: rest).filter (fun b => b ≠ h0) } := by
    unfold HandleInv
    rw [hReq]
    simp only [invBlock, hKind, if_true, hItems, SendGetData]
    rw [hItems] at hSend
    rw [hSend]
    simp only [Exec.andThen, done, hTx, afterSend_blocksInTransit]
  have hFilter : (h0 :: rest).filter (fun b => b ≠ h0) = rest.filter (fun b => b ≠ h0) := by
    simp
  rw [hRun]
  refine ⟨rfl, ⟨_, body, CmdToBytes_getdata, hBody, ?_⟩, ?_, ?_⟩
  · simp only [done, afterSend_wire]
  · simp only [done, hFilter]
  · intro hNot
    simp only [done, hFilter]
    apply List.filter_eq_self.mpr
    intro b hb
    simp only [ne_eq, decide_not, Bool.not_eq_true', decide_eq_false_iff_not]
    intro hEq
    exact hNot (hEq ▸ hb)

/-- C8 amended, on an advertised list of three distinct hashes. -/
theorem HandleInv_block_witness :
    decodePayload demoNet.decInv
        (demoRequest "inv" (.inv ⟨"localhost:3002", "block", [[1], [2], [3]]⟩))
      = .ok ⟨"localhost:3002", "block", [[1], [2], [3]]⟩ ∧
    (HandleInv demoNet demoNode
        (demoRequest "inv" (.inv ⟨"localhost:3002", "block", [[1], [2], [3]]⟩))).panic = none ∧
    (HandleInv demoNet demoNode
        (demoRequest "inv" (.inv ⟨"localhost:3002", "block", [[1], [2], [3]]⟩))).node.blocksInTransit
      = [[2], [3]] :=
  ⟨by decide,
    (HandleInv_block demoNet demoNet_NoFault demoNode
      (demoRequest "inv" (.inv ⟨"localhost:3002", "block", [[1], [2], [3]]⟩))
      ⟨"localhost:3002", "block", [[1], [2], [3]]⟩ [1] [[2], [3]]
      (by decide) rfl rfl).1,
    (HandleInv_block demoNet demoNet_NoFault demoNode
      (demoRequest "inv" (.inv ⟨"localhost:3002", "block", [[1], [2], [3]]⟩))
      ⟨"localhost:3002", "block", [[1], [2], [3]]⟩ [1] [[2], [3]]
      (by decide) rfl rfl).2.2.2 (by decide)⟩

/-! ## Lemmas on `MineTx` -/

theorem SameCore_refl (a : Node) : SameCore a a := ⟨rfl, rfl, rfl, rfl, rfl, rfl⟩

theorem SameCore_trans {a b c : Node} (h1 : SameCore a b) (h2 : SameCore b c) :
    SameCore a c :=
  ⟨h1.1.trans h2.1, h1.2.1.trans h2.2.1, h1.2.2.1.trans h2.2.2.1,
    h1.2.2.2.1.trans h2.2.2.2.1, h1.2.2.2.2.1.trans h2.2.2.2.2.1,
    h1.2.2.2.2.2.trans h2.2.2.2.2.2⟩

theorem SendData_core (env : NetEnv) (node : Node) (addr : String) (data : Bytes) :
    SameCore (SendData env node addr data).node node := by
  unfold SendData
  by_cases h : env.dial addr = true
  · by_cases h2 : env.copyFails addr data = true
    · simp [h, h2, panicked, SameCore]
    · simp [h, h2, done, SameCore]
  · simp [h, done, SameCore]

theorem sendRequest_core (env : NetEnv) (node : Node) (addr cmd : String) (data : Payload) :
    SameCore (sendRequest env node addr cmd data).node node := by
  unfold sendRequest
  cases makeRequest env cmd data with
  | error msg => exact SameCore_refl node
  | ok request => exact SendData_core env node addr request

theorem broadcast_fold_core (env : NetEnv) (b : blockchain.Block) (peers : List String)
    (e : Exec) (node : Node) (h : SameCore e.node node) :
    SameCore (peers.foldl
      (fun e peer => e.andThen fun n =>
        if peer ≠ n.nodeAddress then SendInv env n peer "block" [b.Hash] else done n) e).node
      node := by
  induction peers generalizing e with
  | nil => exact h
  | cons peer rest ih =>
    simp only [List.foldl_cons]
    apply ih
    unfold Exec.andThen
    cases hp : e.panic with
    | some msg => exact h
    | none =>
      simp only
      split
      · exact SameCore_trans (sendRequest_core env e.node peer "inv" _) h
      · exact h

theorem broadcastBlock_core (env : NetEnv) (b : blockchain.Block) (peers : List String)
    (node : Node) : SameCore (broadcastBlock env b peers node).node node :=
  broadcast_fold_core env b peers (done node) node (SameCore_refl node)

theorem broadcast_fold_ok (env : NetEnv) (hOK : NoFault env) (b : blockchain.Block)
    (peers : List String) (e : Exec) (h : e.panic = none) :
    (peers.foldl
      (fun e peer => e.andThen fun n =>
        if peer ≠ n.nodeAddress then SendInv env n peer "block" [b.Hash] else done n) e).panic
      = none := by
  induction peers generalizing e with
  | nil => exact h
  | cons peer rest ih =>
    simp only [List.foldl_cons]
    apply ih
    unfold Exec.andThen
    rw [h]
    simp only
    split
    · obtain ⟨body, hBody⟩ := hOK.1 (.inv ⟨e.node.nodeAddress, "block", [b.Hash]⟩)
      unfold SendInv
      rw [sendRequest_ok env hOK e.node peer "inv" _ _ body CmdToBytes_inv hBody]
      rfl
    · rfl

theorem broadcastBlock_ok (env : NetEnv) (hOK : NoFault env) (b : blockchain.Block)
    (peers : List String) (node : Node) : (broadcastBlock env b peers node).panic = none :=
  broadcast_fold_ok env hOK b peers (done node) rfl

theorem MineBlock_Transactions (env : NetEnv) (chain : Blockchain) (txs : List Transaction) :
    (MineBlock env chain txs).2.1.Transactions = txs := by
  unfold MineBlock
  split
  · rfl
  · split
    · rename_i h
      have := congrArg (fun p => p.1.Transactions) h
      simpa [blockchain.CreateBlock_Transactions] using this.symm
    · rename_i h
      have := congrArg (fun p => p.1.Transactions) h
      simpa [blockchain.CreateBlock_Transactions] using this.symm

/-- What is left of a pool after the deletion of the keys of some
transactions. -/
theorem mem_foldl_poolDelete (txs : List Transaction) (pool : List (String × Transaction))
    (kv : String × Transaction)
    (h : kv ∈ txs.foldl (fun pool tx => poolDelete pool (hex.EncodeToString tx.ID)) pool) :
    kv ∈ pool ∧ ∀ tx ∈ txs, kv.1 ≠ hex.EncodeToString tx.ID := by
  induction txs generalizing pool with
  | nil => exact ⟨h, fun tx htx => absurd htx (List.not_mem_nil tx)⟩
  | cons t rest ih =>
    simp only [List.foldl_cons] at h
    obtain ⟨h1, h2⟩ := ih _ h
    simp only [poolDelete, List.mem_filter, decide_eq_true_eq] at h1
    refine ⟨h1.1, ?_⟩
    intro tx htx
    rcases List.mem_cons.mp htx with rfl | hr
    · exact h1.2
    · exact h2 tx hr

/-! ## C9: mining the whole pool -/

/-- C9: let the pool be non-empty, keyed by the hexadecimal ids of its
transactions as `HandleTx` keys it, with every transaction passing
`VerifyTransaction`; let the environment cause no panic in a `Send` function
and let `MineBlock` succeed on the pool followed by the coinbase transaction.
Then `MineTx` returns, for every bound of at least one on its recursion,
without panic and without calling itself again; it has mined exactly one
block, whose transactions are those of the pool followed by the coinbase
transaction, one more than the pool held; and the pool is empty. -/
theorem MineTx_mines_pool (env : NetEnv) (hOK : NoFault env) (fuel : Nat) (node : Node)
    (hPool : node.memoryPool ≠ [])
    (hKeys : ∀ kv ∈ node.memoryPool, kv.1 = hex.EncodeToString kv.2.ID)
    (hValid : ∀ kv ∈ node.memoryPool, env.VerifyTransaction node.chain kv.2 = true)
    (hMine : (MineBlock env node.chain
      ((node.memoryPool.map fun kv => kv.2) ++ [env.CoinbaseTx node.minerAddress ""])).2.2
        = none) :
    ∃ e newBlock, MineTx env (fuel + 1) node = some e ∧ e.panic = none ∧
      e.node.mined = node.mined ++ [newBlock] ∧
      newBlock.Transactions
        = (node.memoryPool.map fun kv => kv.2) ++ [env.CoinbaseTx node.minerAddress ""] ∧
      newBlock.Transactions.length = node.memoryPool.length + 1 ∧
      e.node.memoryPool = [] := by
  have hFilter : ((node.memoryPool.map fun kv => kv.2).filter
      (env.VerifyTransaction node.chain)) = node.memoryPool.map fun kv => kv.2 := by
    apply List.filter_eq_self.mpr
    intro tx htx
    obtain ⟨kv, hkv, rfl⟩ := List.mem_map.mp htx
    exact hValid kv hkv
  have hLen : ¬ (node.memoryPool.map fun kv => kv.2).length = 0 := by
    simp [hPool]
  have hTx := MineBlock_Transactions env node.chain
    ((node.memoryPool.map fun kv => kv.2) ++ [env.CoinbaseTx node.minerAddress ""])
  cases hMB : MineBlock env node.chain
      ((node.memoryPool.map fun kv => kv.2) ++ [env.CoinbaseTx node.minerAddress ""]) with
  | mk chain1 rest =>
    cases rest with
    | mk newBlock err =>
      rw [hMB] at hMine hTx
      simp only at hMine hTx
      subst hMine
      have hEmpty : List.foldl (fun pool tx => poolDelete pool (hex.EncodeToString tx.ID))
          node.memoryPool
          ((node.memoryPool.map fun kv => kv.2) ++ [env.CoinbaseTx node.minerAddress ""])
            = [] := by
        apply List.eq_nil_iff_forall_not_mem.mpr
        intro kv hkv
        obtain ⟨hIn, hNo⟩ := mem_foldl_poolDelete _ _ kv hkv
        exact hNo kv.2 (List.mem_append_left _ (List.mem_map.mpr ⟨kv, hIn, rfl⟩))
          (hKeys kv hIn)
      refine ⟨broadcastBlock env newBlock node.KnownNodes
        { node with chain := env.Reindex chain1, mined := node.mined ++ [newBlock],
                    memoryPool := [] }, newBlock, ?_, ?_, ?_, hTx, ?_, ?_⟩
      · simp only [MineTx, hFilter, hLen, if_false, hMB, hEmpty]
        rw [broadcastBlock_ok env hOK]
        simp only
        rw [(broadcastBlock_core env newBlock _ _).2.2.2.1]
        simp
      · exact broadcastBlock_ok env hOK _ _ _
      · rw [(broadcastBlock_core env newBlock _ _).2.2.2.2.2]
      · rw [hTx]
        simp
      · rw [(broadcastBlock_core env newBlock _ _).2.2.2.1]

/-- The write of `HandleTx` to the pool keeps it keyed by transaction id. -/
theorem poolSet_PoolKeyed (pool : List (String × Transaction)) (tx : Transaction)
    (h : PoolKeyed pool) : PoolKeyed (poolSet pool (hex.EncodeToString tx.ID) tx) := by
  intro kv hkv
  unfold poolSet at hkv
  split at hkv
  · obtain ⟨old, hold, rfl⟩ := List.mem_map.mp hkv
    split
    · rfl
    · exact h old hold
  · rcases List.mem_append.mp hkv with hIn | hIn
    · exact h kv hIn
    · rw [List.mem_singleton.mp hIn]

/-- C9 at the node of the closed examples with two transactions in its pool:
one block of three transactions is mined and the pool is empty. -/
theorem MineTx_mines_pool_witness :
    ∃ e newBlock, MineTx demoNet 1 demoMiner = some e ∧ e.panic = none ∧
      e.node.mined = demoMiner.mined ++ [newBlock] ∧
      newBlock.Transactions
        = (demoMiner.memoryPool.map fun kv => kv.2)
          ++ [demoNet.CoinbaseTx demoMiner.minerAddress ""] ∧
      newBlock.Transactions.length = demoMiner.memoryPool.length + 1 ∧
      e.node.memoryPool = [] :=
  MineTx_mines_pool demoNet demoNet_NoFault 0 demoMiner (by decide) (by decide) (by decide)
    (by decide)

/-! ## C10: the place of the coinbase transaction -/

/-- C10 as stated fails: the block `MineTx` mines from the pool of the closed
examples lists the two transactions of the pool first and the coinbase
transaction last. -/
theorem MineTx_coinbase_not_first :
    (MineTx demoNet 1 demoMiner).map (fun e => e.node.mined.map fun b => b.Transactions)
      = some [[demoTx1, demoTx2, demoNet.CoinbaseTx "miner" ""]] ∧
    [demoTx1, demoTx2, demoNet.CoinbaseTx "miner" ""].head? = some demoTx1 ∧
    demoTx1 ≠ demoNet.CoinbaseTx "miner" "" := by
  decide

/-- C10 amended: whenever `MineTx` returns or panics within its bound, every
block it has mined, in this call and in the calls it made to itself, has the
coinbase reward transaction as the last entry of its transaction list. -/
theorem MineTx_coinbase_last (env : NetEnv) (fuel : Nat) (node : Node) (e : Exec)
    (h : MineTx env fuel node = some e) :
    ∃ newBlocks, e.node.mined = node.mined ++ newBlocks ∧
      e.node.minerAddress = node.minerAddress ∧
      ∀ b ∈ newBlocks, b.Transactions.getLast? = some (env.CoinbaseTx node.minerAddress "") := by
  induction fuel generalizing node e with
  | zero => simp [MineTx] at h
  | succ fuel ih =>
    simp only [MineTx] at h
    split at h
    · obtain rfl := Option.some.inj h
      exact ⟨[], by simp [done], rfl, fun b hb => absurd hb (List.not_mem_nil b)⟩
    · have hTx := MineBlock_Transactions env node.chain
        ((node.memoryPool.map fun kv => kv.2).filter (env.VerifyTransaction node.chain)
          ++ [env.CoinbaseTx node.minerAddress ""])
      split at h
      · obtain rfl := Option.some.inj h
        exact ⟨[], by simp [panicked], rfl, fun b hb => absurd hb (List.not_mem_nil b)⟩
      · rename_i chain1 newBlock hMB
        rw [hMB] at hTx
        simp only at hTx
        have hLast : newBlock.Transactions.getLast?
            = some (env.CoinbaseTx node.minerAddress "") := by
          rw [hTx]
          simp
        have hCore := broadcastBlock_core env newBlock node.KnownNodes
          { node with chain := env.Reindex chain1, mined := node.mined ++ [newBlock],
                      memoryPool := List.foldl
                        (fun pool tx => poolDelete pool (hex.EncodeToString tx.ID))
                        node.memoryPool
                        ((node.memoryPool.map fun kv => kv.2).filter
                          (env.VerifyTransaction node.chain)
                          ++ [env.CoinbaseTx node.minerAddress ""]) }
        have hOne : ∀ b ∈ [newBlock], b.Transactions.getLast?
            = some (env.CoinbaseTx node.minerAddress "") := by
          intro b hb
          rw [List.mem_singleton.mp hb]
          exact hLast
        split at h
        · obtain rfl := Option.some.inj h
          exact ⟨[newBlock], hCore.2.2.2.2.2, hCore.2.1, hOne⟩
        · split at h
          · obtain ⟨more, hMined, hMiner, hAll⟩ := ih _ e h
            rw [hCore.2.2.2.2.2] at hMined
            rw [hCore.2.1] at hMiner hAll
            refine ⟨newBlock :: more, ?_, hMiner, ?_⟩
            · rw [hMined]
              simp
            · intro b hb
              rcases List.mem_cons.mp hb with rfl | hr
              · exact hLast
              · exact hAll b hr
          · obtain rfl := Option.some.inj h
            exact ⟨[newBlock], hCore.2.2.2.2.2, hCore.2.1, hOne⟩

/-- C10 amended, on the pool of the closed examples. -/
theorem MineTx_coinbase_last_witness :
    ∃ e, MineTx demoNet 1 demoMiner = some e ∧
      ∃ newBlocks, e.node.mined = demoMiner.mined ++ newBlocks ∧
        e.node.minerAddress = demoMiner.minerAddress ∧
        ∀ b ∈ newBlocks,
          b.Transactions.getLast? = some (demoNet.CoinbaseTx demoMiner.minerAddress "") :=
  ⟨(MineTx demoNet 1 demoMiner).get (by decide), by simp,
    MineTx_coinbase_last demoNet 1 demoMiner _ (by simp)⟩

/-! ## C12: the command tag -/

theorem utf8Size_ascii (c : Char) (h : c.toNat < 128) : c.utf8Size = 1 := by
  have h1 : c.val.toNat < 128 := h
  unfold Char.utf8Size
  have h2 : c.val ≤ 127 := by
    rw [UInt32.le_def]
    show c.val.toNat ≤ 127
    omega
  simp [h2]

theorem CmdToBytesLoop_ascii (cs : List Char) (pre : Bytes)
    (hAscii : ∀ c ∈ cs, c.toNat < 128)
    (hLen : pre.length + cs.length ≤ commandLength) :
    CmdToBytesLoop cs pre.length (pre ++ List.replicate (commandLength - pre.length) 0)
      = some (pre ++ cs.map (fun c => Fin.ofNat c.toNat)
          ++ List.replicate (commandLength - pre.length - cs.length) 0) := by
  induction cs generalizing pre with
  | nil => simp [CmdToBytesLoop]
  | cons c rest ih =>
    have hc := hAscii c (List.mem_cons_self _ _)
    simp only [List.length_cons] at hLen
    have hlt : pre.length < commandLength := by omega
    have hSet : (pre ++ List.replicate (commandLength - pre.length) (0 : Byte)).set pre.length
        (Fin.ofNat c.toNat)
        = (pre ++ [Fin.ofNat c.toNat])
          ++ List.replicate (commandLength - (pre ++ [Fin.ofNat c.toNat]).length) 0 := by
      have hRep : List.replicate (commandLength - pre.length) (0 : Byte)
          = 0 :: List.replicate (commandLength - pre.length - 1) 0 := by
        rw [← List.replicate_succ]
        congr 1
        omega
      rw [hRep, List.set_append_right _ _ (le_refl _)]
      simp [Nat.sub_sub]
    have := ih (pre ++ [Fin.ofNat c.toNat])
      (fun x hx => hAscii x (List.mem_cons_of_mem _ hx))
      (by simp only [List.length_append, List.length_singleton]; omega)
    simp only [CmdToBytesLoop, if_pos hlt, utf8Size_ascii c hc, hSet]
    simp only [List.length_append, List.length_singleton] at this ⊢
    rw [this]
    simp [Nat.sub_sub, Nat.add_comm]
    omega

theorem strBytes_nonzero (cs : List Char) (h : ∀ c ∈ cs, c.toNat ≠ 0 ∧ c.toNat < 128) :
    (cs.map fun c => (Fin.ofNat c.toNat : Byte)).filter (fun b => b ≠ 0)
      = cs.map fun c => (Fin.ofNat c.toNat : Byte) := by
  apply List.filter_eq_self.mpr
  intro b hb
  obtain ⟨c, hc, rfl⟩ := List.mem_map.mp hb
  obtain ⟨h0, h1⟩ := h c hc
  simp only [ne_eq, decide_not, Bool.not_eq_true', decide_eq_false_iff_not]
  intro hEq
  have := congrArg Fin.val hEq
  simp only [Fin.ofNat, Fin.val_zero] at this
  omega

theorem bytesStr_strBytes (cs : List Char) (h : ∀ c ∈ cs, c.toNat < 128) :
    (cs.map fun c => (Fin.ofNat c.toNat : Byte)).map (fun x => Char.ofNat x.val) = cs := by
  induction cs with
  | nil => rfl
  | cons c rest ih =>
    have hc := h c (List.mem_cons_self _ _)
    have hv : (Fin.ofNat c.toNat : Byte).val = c.toNat := by
      simp only [Fin.ofNat]
      omega
    simp only [List.map_cons, hv, Char.ofNat_toNat, ih (fun x hx => h x (List.mem_cons_of_mem _ hx))]

/-- C12: for every command string of at most 12 characters, each an ASCII
character other than NUL, `CmdToBytes` returns the bytes of the command
followed by zero bytes, 12 bytes in all, and `BytesToCmd` gives the command
back from them.  This holds in particular of the seven commands of the
protocol. -/
theorem CmdToBytes_BytesToCmd (cmd : String)
    (hAscii : ∀ c ∈ cmd.data, c.toNat ≠ 0 ∧ c.toNat < 128)
    (hLen : cmd.length ≤ commandLength) :
    CmdToBytes cmd = some (strBytes cmd ++ List.replicate (commandLength - cmd.length) 0) ∧
    (strBytes cmd ++ List.replicate (commandLength - cmd.length) 0).length = commandLength ∧
    BytesToCmd (strBytes cmd ++ List.replicate (commandLength - cmd.length) 0) = cmd ∧
    ∀ c ∈ ["version", "addr", "block", "getblocks", "getdata", "inv", "tx"],
      ∃ tag, CmdToBytes c = some tag ∧ tag.length = commandLength ∧ BytesToCmd tag = c := by
  have hLen2 : cmd.data.length ≤ commandLength := hLen
  refine ⟨?_, ?_, ?_, by decide⟩
  · have h := CmdToBytesLoop_ascii cmd.data [] (fun c hc => (hAscii c hc).2)
      (by simpa using hLen2)
    simp only [List.length_nil, List.nil_append, Nat.sub_zero] at h
    exact h
  · simp only [strBytes, List.length_append, List.length_map, List.length_replicate,
      String.length]
    omega
  · unfold BytesToCmd bytesStr strBytes
    rw [List.filter_append, strBytes_nonzero cmd.data hAscii]
    have hZero : (List.replicate (commandLength - cmd.length) (0 : Byte)).filter
        (fun b => b ≠ 0) = [] := by
      apply List.filter_eq_nil_iff.mpr
      intro b hb
      simp [List.eq_of_mem_replicate hb]
    rw [hZero, List.append_nil, bytesStr_strBytes cmd.data (fun c hc => (hAscii c hc).2)]

/-- C12 at the command `getblocks`. -/
theorem CmdToBytes_BytesToCmd_witness :
    CmdToBytes "getblocks" = some [103, 101, 116, 98, 108, 111, 99, 107, 115, 0, 0, 0] ∧
    BytesToCmd [103, 101, 116, 98, 108, 111, 99, 107, 115, 0, 0, 0] = "getblocks" :=
  ⟨(CmdToBytes_BytesToCmd "getblocks" (by decide) (by decide)).1,
    (CmdToBytes_BytesToCmd "getblocks" (by decide) (by decide)).2.2.1⟩

/-! ## C13: termination of `MineTx` -/

/-- The pool the clearing loop of `MineTx` leaves: the entries whose key is
the hexadecimal id of none of the transactions. -/
theorem foldl_poolDelete_eq_filter (txs : List Transaction)
    (pool : List (String × Transaction)) :
    txs.foldl (fun pool tx => poolDelete pool (hex.EncodeToString tx.ID)) pool
      = pool.filter
          (fun kv => txs.all fun tx => decide (kv.1 ≠ hex.EncodeToString tx.ID)) := by
  induction txs generalizing pool with
  | nil => simp
  | cons t rest ih =>
    simp only [List.foldl_cons]
    rw [ih]
    simp only [poolDelete, List.filter_filter, List.all_cons]
    congr 1
    funext kv
    exact Bool.and_comm _ _

/-- The clearing loop removes an entry when a transaction of a keyed pool is
among the transactions mined. -/
theorem foldl_poolDelete_length_lt (txs : List Transaction)
    (pool : List (String × Transaction)) (hKeyed : PoolKeyed pool)
    (tx : Transaction) (hPool : tx ∈ pool.map fun kv => kv.2) (hTx : tx ∈ txs) :
    (txs.foldl (fun pool tx => poolDelete pool (hex.EncodeToString tx.ID)) pool).length
      < pool.length := by
  rw [foldl_poolDelete_eq_filter]
  apply List.length_filter_lt_length_iff_exists.mpr
  obtain ⟨kv, hkv, rfl⟩ := List.mem_map.mp hPool
  refine ⟨kv, hkv, ?_⟩
  simp only [List.all_eq_true, decide_eq_true_eq, not_forall]
  exact ⟨kv.2, hTx, fun hne => hne (hKeyed kv hkv)⟩

theorem foldl_poolDelete_PoolKeyed (txs : List Transaction)
    (pool : List (String × Transaction)) (hKeyed : PoolKeyed pool) :
    PoolKeyed (txs.foldl (fun pool tx => poolDelete pool (hex.EncodeToString tx.ID)) pool) :=
  fun kv hkv => hKeyed kv (mem_foldl_poolDelete txs pool kv hkv).1

/-- One invocation of `MineTx` on a keyed pool either ends, with or without a
panic, whatever the bound, or calls `MineTx` on a node whose pool is keyed
and strictly smaller. -/
theorem MineTx_step (env : NetEnv) (node : Node) (hKeyed : PoolKeyed node.memoryPool) :
    (∃ e, ∀ fuel, MineTx env (fuel + 1) node = some e) ∨
    (∃ next, next.memoryPool.length < node.memoryPool.length ∧
      PoolKeyed next.memoryPool ∧
      ∀ fuel, MineTx env (fuel + 1) node = MineTx env fuel next) := by
  by_cases hNone : ((node.memoryPool.map fun kv => kv.2).filter
      (env.VerifyTransaction node.chain)).length = 0
  · exact Or.inl ⟨done node, fun fuel => by simp only [MineTx, hNone, if_true]⟩
  · cases hMB : MineBlock env node.chain
        ((node.memoryPool.map fun kv => kv.2).filter (env.VerifyTransaction node.chain)
          ++ [env.CoinbaseTx node.minerAddress ""]) with
    | mk chain1 rest =>
      cases rest with
      | mk newBlock err =>
        cases err with
        | some msg =>
          exact Or.inl ⟨panicked { node with chain := chain1 } msg,
            fun fuel => by simp only [MineTx, hNone, if_false, hMB]⟩
        | none =>
          have hCore := broadcastBlock_core env newBlock node.KnownNodes
            { node with chain := env.Reindex chain1, mined := node.mined ++ [newBlock],
                        memoryPool := List.foldl
                          (fun pool tx => poolDelete pool (hex.EncodeToString tx.ID))
                          node.memoryPool
                          ((node.memoryPool.map fun kv => kv.2).filter
                            (env.VerifyTransaction node.chain)
                            ++ [env.CoinbaseTx node.minerAddress ""]) }
          obtain ⟨sent, hSent⟩ : ∃ sent, broadcastBlock env newBlock node.KnownNodes
            { node with chain := env.Reindex chain1, mined := node.mined ++ [newBlock],
                        memoryPool := List.foldl
                          (fun pool tx => poolDelete pool (hex.EncodeToString tx.ID))
                          node.memoryPool
                          ((node.memoryPool.map fun kv => kv.2).filter
                            (env.VerifyTransaction node.chain)
                            ++ [env.CoinbaseTx node.minerAddress ""]) } = sent := ⟨_, rfl⟩
          rw [hSent] at hCore
          cases hPanic : sent.panic with
          | some msg =>
            exact Or.inl ⟨sent, fun fuel => by
              simp only [MineTx, hNone, if_false, hMB, hSent, hPanic]⟩
          | none =>
            by_cases hLeft : sent.node.memoryPool.length > 0
            · refine Or.inr ⟨sent.node, ?_, ?_, fun fuel => by
                simp only [MineTx, hNone, if_false, hMB, hSent, hPanic, hLeft, if_true]⟩
              · rw [hCore.2.2.2.1]
                obtain ⟨tx, htx⟩ := List.exists_mem_of_length_pos (Nat.pos_of_ne_zero hNone)
                exact foldl_poolDelete_length_lt _ _ hKeyed tx (List.mem_filter.mp htx).1
                  (List.mem_append_left _ htx)
              · rw [hCore.2.2.2.1]
                exact foldl_poolDelete_PoolKeyed _ _ hKeyed
            · exact Or.inl ⟨sent, fun fuel => by
                simp only [MineTx, hNone, if_false, hMB, hSent, hPanic, hLeft]⟩

theorem MineTx_returns_within (env : NetEnv) (n : Nat) :
    ∀ node : Node, PoolKeyed node.memoryPool → node.memoryPool.length ≤ n →
      ∀ fuel, n + 1 ≤ fuel → ∃ e, MineTx env fuel node = some e := by
  induction n with
  | zero =>
    intro node hKeyed hLen fuel hFuel
    obtain ⟨f, rfl⟩ : ∃ f, fuel = f + 1 := ⟨fuel - 1, by omega⟩
    rcases MineTx_step env node hKeyed with ⟨e, he⟩ | ⟨next, hLt, _, _⟩
    · exact ⟨e, he f⟩
    · omega
  | succ m ih =>
    intro node hKeyed hLen fuel hFuel
    obtain ⟨f, rfl⟩ : ∃ f, fuel = f + 1 := ⟨fuel - 1, by omega⟩
    rcases MineTx_step env node hKeyed with ⟨e, he⟩ | ⟨next, hLt, hNextKeyed, hNext⟩
    · exact ⟨e, he f⟩
    · rw [hNext f]
      exact ih next hNextKeyed (by omega) f (by omega)

/-- C13: on a pool keyed by transaction id, as `HandleTx` keys it, and for
every outcome of `VerifyTransaction`, `MineTx` ends, by a return or a panic,
within a recursion depth of the pool size plus one.  An invocation in which no
transaction verifies returns the node as it is without calling `MineTx`; every
other invocation either ends or calls `MineTx` on a pool that is strictly
smaller and still keyed. -/
theorem MineTx_terminates (env : NetEnv) (node : Node)
    (hKeyed : PoolKeyed node.memoryPool) :
    (∀ fuel, node.memoryPool.length + 1 ≤ fuel → ∃ e, MineTx env fuel node = some e) ∧
    ((node.memoryPool.map fun kv => kv.2).filter (env.VerifyTransaction node.chain) = [] →
      ∀ fuel, MineTx env (fuel + 1) node = some (done node)) ∧
    ((∃ e, ∀ fuel, MineTx env (fuel + 1) node = some e) ∨
      (∃ next, next.memoryPool.length < node.memoryPool.length ∧
        PoolKeyed next.memoryPool ∧
        ∀ fuel, MineTx env (fuel + 1) node = MineTx env fuel next)) := by
  refine ⟨MineTx_returns_within env node.memoryPool.length node hKeyed (le_refl _), ?_,
    MineTx_step env node hKeyed⟩
  intro hNone fuel
  simp only [MineTx, hNone, List.length_nil, if_true]

/-- C13 on the pool of two transactions of the closed examples: a recursion
bound of three is enough. -/
theorem MineTx_terminates_witness :
    PoolKeyed demoMiner.memoryPool ∧ ∃ e, MineTx demoNet 3 demoMiner = some e :=
  ⟨by unfold PoolKeyed; decide,
    (MineTx_terminates demoNet demoMiner (by unfold PoolKeyed; decide)).1 3 (by decide)⟩

/-! ## C11: malformed requests -/

set_option maxRecDepth 20000 in
/-- C11 as stated fails.  A request with the command `version` and an
undecodable payload makes `HandleConnection` panic; so does an inv request of
type "block" with an empty item list, after the blocks-in-transit queue has
been overwritten with the empty list; and so does the two-byte request `tx`,
which passes the command switch and fails in the handler. -/
theorem HandleConnection_panics :
    (HandleConnection demoNet 1 demoNode (some garbledVersion)).map (fun e => e.panic)
      = some (some "gob: decode error") ∧
    ((HandleConnection demoNet 1 demoNodeSyncing (some emptyInv)).map (fun e => e.panic)
        = some (some "index out of range") ∧
      demoNodeSyncing.blocksInTransit = [[9]] ∧
      (HandleConnection demoNet 1 demoNodeSyncing (some emptyInv)).map
        (fun e => e.node.blocksInTransit) = some []) ∧
    (HandleConnection demoNet 1 demoNode (some shortTx)).map (fun e => e.panic)
      = some (some "slice bounds out of range") := by
  decide

theorem decodePayload_fail {α : Type} (dec : Bytes → Option α) (request : Bytes)
    (hLen : commandLength ≤ request.length) (hDec : dec (request.drop commandLength) = none) :
    decodePayload dec request = .error "gob: decode error" := by
  unfold decodePayload
  rw [if_neg (by omega), hDec]

/-- C11 amended: let the slice expression `req[:commandLength]` of
`HandleConnection` succeed on the request and give the tag `tag`.  If the
command of the tag is none of the seven commands, `HandleConnection` returns
without panic and leaves the node, with its pool, peer registry and
blocks-in-transit queue, as it was.  If it is one of them, the request has at
least 12 bytes and the decoder of the command rejects the payload, the handler
stops with the panic of `log.Panic`, the node being as it was. -/
theorem HandleConnection_malformed (env : NetEnv) (fuel : Nat) (node : Node)
    (req : Received) (tag : Bytes) (hTag : req.tag = some tag) :
    (knownCommand (BytesToCmd tag) = false →
      HandleConnection env fuel node (some req) = some (done node)) ∧
    (knownCommand (BytesToCmd tag) = true → commandLength ≤ req.data.length →
      payloadDecodes env (BytesToCmd tag) (req.data.drop commandLength) = false →
      HandleConnection env fuel node (some req)
        = some (panicked node "gob: decode error")) := by
  simp only [HandleConnection, hTag]
  constructor
  · intro hUnknown
    simp only [knownCommand, List.contains_eq_any_beq, List.any_cons, List.any_nil,
      Bool.or_false, Bool.or_eq_false_iff, beq_eq_false_iff_ne, ne_eq] at hUnknown
    obtain ⟨h1, h2, h3, h4, h5, h6, h7⟩ := hUnknown
    simp only [dispatch, h1, h2, h3, h4, h5, h6, h7, if_false]
  · intro hKnown hLen hDec
    unfold payloadDecodes at hDec
    unfold dispatch
    split
    · rename_i hc
      simp only [hc, if_true] at hDec
      rw [HandleAddr, decodePayload_fail _ _ hLen (by simpa using hDec)]
    · split
      · rename_i hc0 hc
        simp only [hc0, hc, if_true, if_false] at hDec
        rw [HandleBlock, decodePayload_fail _ _ hLen (by simpa using hDec)]
      · split
        · rename_i hc0 hc1 hc
          simp only [hc0, hc1, hc, if_true, if_false] at hDec
          rw [HandleInv, decodePayload_fail _ _ hLen (by simpa using hDec)]
        · split
          · rename_i hc0 hc1 hc2 hc
            simp only [hc0, hc1, hc2, hc, if_true, if_false] at hDec
            rw [HandleGetBlocks, decodePayload_fail _ _ hLen (by simpa using hDec)]
          · split
            · rename_i hc0 hc1 hc2 hc3 hc
              simp only [hc0, hc1, hc2, hc3, hc, if_true, if_false] at hDec
              rw [HandleGetData, decodePayload_fail _ _ hLen (by simpa using hDec)]
            · split
              · rename_i hc0 hc1 hc2 hc3 hc4 hc
                simp only [hc0, hc1, hc2, hc3, hc4, hc, if_true, if_false] at hDec
                rw [HandleTx, decodePayload_fail _ _ hLen (by simpa using hDec)]
              · split
                · rename_i hc0 hc1 hc2 hc3 hc4 hc5 hc
                  simp only [hc0, hc1, hc2, hc3, hc4, hc5, hc, if_true, if_false] at hDec
                  rw [HandleVersion, decodePayload_fail _ _ hLen (by simpa using hDec)]
                · rename_i hc0 hc1 hc2 hc3 hc4 hc5 hc6
                  simp [knownCommand, hc0, hc1, hc2, hc3, hc4, hc5, hc6] at hKnown

set_option maxRecDepth 20000 in
/-- C11 amended, on a five-byte request that spells no command and on a
version request with an undecodable payload. -/
theorem HandleConnection_malformed_witness :
    helloRequest.tag = some (strBytes "hello" ++ List.replicate 7 0) ∧
    HandleConnection demoNet 1 demoNode (some helloRequest) = some (done demoNode) ∧
    HandleConnection demoNet 1 demoNode (some garbledVersion)
      = some (panicked demoNode "gob: decode error") :=
  ⟨by decide,
    (HandleConnection_malformed demoNet 1 demoNode helloRequest
      (strBytes "hello" ++ List.replicate 7 0) (by decide)).1 (by decide),
    (HandleConnection_malformed demoNet 1 demoNode garbledVersion
      ((CmdToBytes "version").getD []) (by decide)).2 (by decide) (by decide) (by decide)⟩

end network
